import Mathlib

/-!
# Animated node dependency-graph engine

A shallow embedding of `AnimatedNodesManager.cpp` (namespace `rnoh`).

* Tags (`facebook::react::Tag`) are integers.
* The two maps `m_nodeByTag`, `m_animationById` are association lists looked up by key; the
  set `m_updatedNodeTags` is a list read up to duplicates.
* Calls that leave the manager (`node.update()`, `propsNode->updateView()`,
  `endCallback_(b)`, `m_scheduleUpdateFn()`, `driver->runAnimationStep(t)`, the setters of a
  value node) are recorded, in call order, in the field `trace`.
* A C++ exception is an `Outcome` whose `error` is `some e`; its `state` is the manager as the
  statements executed before the throw left it.
* The node and driver classes are declared in headers outside this file. What the manager
  needs from a driver is taken as a parameter (`DriverOps`).
* The numbers handed to a value node (`double`) are passed through unread; they are carried
  as integers.
* The containers are unordered in the source; the lists fix one iteration order, and the
  results on `updateNodes` hold for every order of its argument.
-/

namespace rnoh

/-- Node tags and animation ids, `facebook::react::Tag`. -/
abbrev Tag := Int

/-- The part of a `folly::dynamic` configuration the manager reads itself is the
discriminant `type`; everything else is handed on to constructors and kept as a code. -/
structure Config where
  type : String
  payload : Nat
deriving DecidableEq, Repr

/-- The four node classes `createNode` can build. -/
inductive NodeKind
  | props
  | style
  | value
  | transform
deriving DecidableEq, Repr

/-- An animated node as far as the manager looks into it: its tag, its dynamic class, the
configuration it was built from and the tags of its children. -/
structure AnimatedNode where
  tag_ : Tag
  kind : NodeKind
  config : Config
  childrenTags : List Tag
deriving DecidableEq, Repr

/-- The state private to a driver class: the configuration it runs and its progress. -/
structure DriverBody where
  config : Config
  progress : Nat
deriving DecidableEq, Repr

/-- An animation driver: `getId()`, `getAnimatedValueTag()`, the public member
`endCallback_` (the callback is named by a number) and the private state. -/
structure AnimationDriver where
  id : Tag
  animatedValueTag : Tag
  endCallback_ : Nat
  body : DriverBody
deriving DecidableEq, Repr

/-- The member functions of the driver classes the manager calls. They are declared in
`Drivers/FrameBasedAnimationDriver.h`, outside this file, and are taken as parameters. -/
structure DriverOps where
  construct : Config → DriverBody
  resetConfig : DriverBody → Config → DriverBody
  runAnimationStep : DriverBody → Nat → DriverBody
  hasFinished : DriverBody → Bool

/-- Calls made by the manager, in the order they happen. -/
inductive Event
  | update (tag : Tag)
  | updateView (tag : Tag)
  | endCallback (cb : Nat) (finished : Bool)
  | scheduleUpdate
  | runAnimationStep (animationId : Tag) (frameTimeNanos : Nat)
  | resetConfig (animationId : Tag) (config : Config)
  | setValue (tag : Tag) (value : Int)
  | setOffset (tag : Tag) (offset : Int)
  | flattenOffset (tag : Tag)
  | extractOffset (tag : Tag)
  | getValue (tag : Tag)
  | connectToView (tag : Tag) (viewTag : Tag)
  | disconnectFromView (tag : Tag) (viewTag : Tag)
deriving DecidableEq, Repr

/-- What the manager can throw. -/
inductive Error
  /-- `std::out_of_range`, "Animated node with tag N does not exist". -/
  | nodeDoesNotExist (tag : Tag)
  /-- `std::out_of_range`, "Animated node with tag N is not a value node". -/
  | notAValueNode (tag : Tag)
  /-- `std::bad_cast` of `dynamic_cast<PropsAnimatedNode &>`. -/
  | badCast (tag : Tag)
  /-- `std::runtime_error`, "Unsupported node type: T". -/
  | unsupportedNodeType (type : String)
  /-- `std::runtime_error`, "Unsupported animation type: T". -/
  | unsupportedAnimationType (type : String)
  /-- `std::runtime_error`, "There were A active nodes, but only U were updated". -/
  | notAllUpdated (activeNodesCount updatedNodesCount : Nat)
  /-- `std::out_of_range` of `m_animationById.at`. -/
  | animationNotFound (animationId : Tag)
deriving DecidableEq, Repr

/-- The data members of `AnimatedNodesManager`, and the record of its outgoing calls. -/
structure AnimatedNodesManager where
  nodeByTag : List (Tag × AnimatedNode)
  animationById : List (Tag × AnimationDriver)
  updatedNodeTags : List Tag
  isRunningAnimations : Bool
  trace : List Event
deriving DecidableEq, Repr

/-- How a member function ends: `error = none` is a normal return. -/
structure Outcome where
  error : Option Error
  state : AnimatedNodesManager
deriving DecidableEq, Repr

/-- Modelled from the spec: the member initialisers are in the header, outside this file.
A manager right after construction has empty containers and is idle (running flag clear). -/
def AnimatedNodesManager.fresh : AnimatedNodesManager :=
  { nodeByTag := [], animationById := [], updatedNodeTags := [],
    isRunningAnimations := false, trace := [] }

/-! ## Containers -/

/-- Member `insert` of a map: an entry whose key is present already is left as it is. -/
def mapInsert {β : Type} (l : List (Tag × β)) (k : Tag) (v : β) : List (Tag × β) :=
  match l.lookup k with
  | some _ => l
  | none => l ++ [(k, v)]

/-- Member `erase(key)` of a map. -/
def mapErase {β : Type} (l : List (Tag × β)) (k : Tag) : List (Tag × β) :=
  l.filter (fun e => e.1 != k)

/-- Assignment through a reference obtained from the map: the entries under `k` get `v`. -/
def mapSet {β : Type} (l : List (Tag × β)) (k : Tag) (v : β) : List (Tag × β) :=
  l.map (fun e => if e.1 == k then (e.1, v) else e)

/-- Member `insert` of a set. -/
def setInsert (l : List Tag) (t : Tag) : List Tag :=
  if t ∈ l then l else l ++ [t]

/-- Member `erase` of a set. -/
def setErase (l : List Tag) (t : Tag) : List Tag :=
  l.filter (fun x => x != t)

/-! ## Lookups -/

/-- The function `getNodeByTag`. -/
def getNodeByTag (m : AnimatedNodesManager) (tag : Tag) : Except Error AnimatedNode :=
  match m.nodeByTag.lookup tag with
  | some node => .ok node
  | none => .error (.nodeDoesNotExist tag)

/-- The function `getValueNodeByTag`: the dynamic cast succeeds on value nodes only. -/
def getValueNodeByTag (m : AnimatedNodesManager) (tag : Tag) : Except Error AnimatedNode :=
  match getNodeByTag m tag with
  | .error e => .error e
  | .ok node => if node.kind = .value then .ok node else .error (.notAValueNode tag)

/-- Append one call to the record. -/
def AnimatedNodesManager.emit (m : AnimatedNodesManager) (e : Event) : AnimatedNodesManager :=
  { m with trace := m.trace ++ [e] }

/-! ## Graph mutation -/

/-- The class named by a type string, as the if-chain of `createNode` selects it. -/
def nodeKindOfType (type : String) : Option NodeKind :=
  if type = "props" then some .props
  else if type = "style" then some .style
  else if type = "value" then some .value
  else if type = "transform" then some .transform
  else none

/-- The function `createNode`. -/
def createNode (m : AnimatedNodesManager) (tag : Tag) (config : Config) : Outcome :=
  match nodeKindOfType config.type with
  | none => { error := some (.unsupportedNodeType config.type), state := m }
  | some kind =>
    let node : AnimatedNode := { tag_ := tag, kind := kind, config := config, childrenTags := [] }
    { error := none,
      state := { m with nodeByTag := mapInsert m.nodeByTag tag node,
                        updatedNodeTags := setInsert m.updatedNodeTags tag } }

/-- The function `dropNode`. -/
def dropNode (m : AnimatedNodesManager) (tag : Tag) : Outcome :=
  { error := none,
    state := { m with updatedNodeTags := setErase m.updatedNodeTags tag,
                      nodeByTag := mapErase m.nodeByTag tag } }

/-- Modelled from the spec: `AnimatedNode::addChild` is declared in a header outside this
file; the spec says a node holds an ordered set of child ids and that connecting mutates the
child set of the parent. -/
def AnimatedNode.addChild (parent child : AnimatedNode) : AnimatedNode :=
  { parent with childrenTags := setInsert parent.childrenTags child.tag_ }

/-- Modelled from the spec: `AnimatedNode::removeChild` is declared in a header outside this
file; it takes the child id out of the child set of the parent. -/
def AnimatedNode.removeChild (parent child : AnimatedNode) : AnimatedNode :=
  { parent with childrenTags := setErase parent.childrenTags child.tag_ }

/-- The function `connectNodes`. -/
def connectNodes (m : AnimatedNodesManager) (parentTag childTag : Tag) : Outcome :=
  match getNodeByTag m parentTag with
  | .error e => { error := some e, state := m }
  | .ok parent =>
    match getNodeByTag m childTag with
    | .error e => { error := some e, state := m }
    | .ok child =>
      { error := none,
        state := { m with nodeByTag := mapSet m.nodeByTag parentTag (parent.addChild child),
                          updatedNodeTags := setInsert m.updatedNodeTags childTag } }

/-- The function `disconnectNodes`. -/
def disconnectNodes (m : AnimatedNodesManager) (parentTag childTag : Tag) : Outcome :=
  match getNodeByTag m parentTag with
  | .error e => { error := some e, state := m }
  | .ok parent =>
    match getNodeByTag m childTag with
    | .error e => { error := some e, state := m }
    | .ok child =>
      { error := none,
        state := { m with nodeByTag := mapSet m.nodeByTag parentTag (parent.removeChild child),
                          updatedNodeTags := setInsert m.updatedNodeTags childTag } }

/-- The function `connectNodeToView`. -/
def connectNodeToView (m : AnimatedNodesManager) (nodeTag viewTag : Tag) : Outcome :=
  match getNodeByTag m nodeTag with
  | .error e => { error := some e, state := m }
  | .ok node =>
    if node.kind = .props then
      { error := none,
        state := { m.emit (.connectToView nodeTag viewTag) with
                     updatedNodeTags := setInsert m.updatedNodeTags nodeTag } }
    else { error := some (.badCast nodeTag), state := m }

/-- The function `disconnectNodeFromView`. -/
def disconnectNodeFromView (m : AnimatedNodesManager) (nodeTag viewTag : Tag) : Outcome :=
  match getNodeByTag m nodeTag with
  | .error e => { error := some e, state := m }
  | .ok node =>
    if node.kind = .props then
      { error := none, state := m.emit (.disconnectFromView nodeTag viewTag) }
    else { error := some (.badCast nodeTag), state := m }

/-! ## Drivers -/

/-- The function `stopAnimation`. -/
def stopAnimation (m : AnimatedNodesManager) (animationId : Tag) : Outcome :=
  match m.animationById.lookup animationId with
  | some driver =>
    if driver.id = animationId then
      { error := none,
        state := { m.emit (.endCallback driver.endCallback_ false) with
                     animationById := mapErase m.animationById animationId } }
    else { error := none, state := m }
  | none => { error := none, state := m }

/-- The function `stopAnimationsForNode`. -/
def stopAnimationsForNode (m : AnimatedNodesManager) (tag : Tag) : AnimatedNodesManager :=
  let animationsToStop :=
    (m.animationById.filter (fun e => e.2.animatedValueTag = tag)).map (fun e => e.1)
  animationsToStop.foldl (fun acc id => (stopAnimation acc id).state) m

/-- The function `startAnimatingNode`. -/
def startAnimatingNode (ops : DriverOps) (m : AnimatedNodesManager) (animationId nodeTag : Tag)
    (config : Config) (endCallback : Nat) : Outcome :=
  match getValueNodeByTag m nodeTag with
  | .error e => { error := some e, state := m }
  | .ok _ =>
    match m.animationById.lookup animationId with
    | some driver =>
      { error := none,
        state := { m.emit (.resetConfig animationId config) with
                     animationById := mapSet m.animationById animationId
                       { driver with body := ops.resetConfig driver.body config } } }
    | none =>
      if config.type = "frames" then
        let driver : AnimationDriver :=
          { id := animationId, animatedValueTag := nodeTag, endCallback_ := endCallback,
            body := ops.construct config }
        let m1 := { m with animationById := mapInsert m.animationById animationId driver }
        if m1.isRunningAnimations then { error := none, state := m1 }
        else { error := none, state := { m1 with isRunningAnimations := true }.emit .scheduleUpdate }
      else { error := some (.unsupportedAnimationType config.type), state := m }

/-! ## Value operations -/

/-- The function `setValue`. -/
def setValue (m : AnimatedNodesManager) (tag : Tag) (value : Int) : Outcome :=
  match getValueNodeByTag m tag with
  | .error e => { error := some e, state := m }
  | .ok _ =>
    let m1 := stopAnimationsForNode m tag
    { error := none,
      state := { m1 with updatedNodeTags := setInsert m1.updatedNodeTags tag }.emit
                 (.setValue tag value) }

/-- The function `setOffset`. -/
def setOffset (m : AnimatedNodesManager) (tag : Tag) (offset : Int) : Outcome :=
  match getValueNodeByTag m tag with
  | .error e => { error := some e, state := m }
  | .ok _ =>
    { error := none,
      state := { m with updatedNodeTags := setInsert m.updatedNodeTags tag }.emit
                 (.setOffset tag offset) }

/-- The function `flattenOffset`. -/
def flattenOffset (m : AnimatedNodesManager) (tag : Tag) : Outcome :=
  match getValueNodeByTag m tag with
  | .error e => { error := some e, state := m }
  | .ok _ => { error := none, state := m.emit (.flattenOffset tag) }

/-- The function `extractOffset`. -/
def extractOffset (m : AnimatedNodesManager) (tag : Tag) : Outcome :=
  match getValueNodeByTag m tag with
  | .error e => { error := some e, state := m }
  | .ok _ => { error := none, state := m.emit (.extractOffset tag) }

/-- The function `getValue`; the number returned is held by the value node. -/
def getValue (m : AnimatedNodesManager) (tag : Tag) : Outcome :=
  match getValueNodeByTag m tag with
  | .error e => { error := some e, state := m }
  | .ok _ => { error := none, state := m.emit (.getValue tag) }

/-! ## The update pass -/

/-- The statement `incomingEdgesCount[t]++`. A 64-bit counter wraps only after 2^64
increments for one tag, that is after 2^64 child entries naming it, which no graph held in
memory has; so the increment is taken on the naturals. The same holds for
`activeNodesCount` and `updatedNodesCount`, which count distinct 32-bit tags. -/
def incrCount (cnt : Tag → Nat) (t : Tag) : Tag → Nat :=
  Function.update cnt t (cnt t + 1)

/-- The statement `incomingEdgesCount[t]--` on a `uint64_t`: zero wraps to 2^64 - 1. -/
def decrCount (cnt : Tag → Nat) (t : Tag) : Tag → Nat :=
  Function.update cnt t (if cnt t = 0 then 2 ^ 64 - 1 else cnt t - 1)

/-- First loop of `updateNodes`: walk the graph from the queue, collecting the visited tags,
the number of edges entering each tag and `activeNodesCount`. The first argument bounds the
number of iterations; `none` means the bound was too small. -/
def discoverNodes (m : AnimatedNodesManager) :
    Nat → List Tag → List Tag → (Tag → Nat) → Nat →
      Option (Except Error (List Tag × (Tag → Nat) × Nat))
  | _, [], visited, cnt, active => some (.ok (visited, cnt, active))
  | 0, _ :: _, _, _, _ => none
  | fuel + 1, tag :: queue, visited, cnt, active =>
    if tag ∈ visited then discoverNodes m fuel queue visited cnt active
    else
      match getNodeByTag m tag with
      | .error e => some (.error e)
      | .ok node =>
        discoverNodes m fuel (queue ++ node.childrenTags) (tag :: visited)
          (node.childrenTags.foldl incrCount cnt) (active + 1)

/-- The inner loop of the second phase: decrement the counter of each child and enqueue the
child when its counter has become zero. -/
def releaseChildren : List Tag → List Tag × (Tag → Nat) → List Tag × (Tag → Nat)
  | [], st => st
  | childTag :: rest, (queue, cnt) =>
    let cnt1 := decrCount cnt childTag
    releaseChildren rest (if cnt1 childTag = 0 then queue ++ [childTag] else queue, cnt1)

/-- Second loop of `updateNodes`: pop a tag, update its node (and its view for a props node),
count it, release its children. Returns the error thrown if any, `updatedNodesCount` and the
record of calls. The first argument bounds the number of iterations. -/
def updateLoop (m : AnimatedNodesManager) :
    Nat → List Tag → (Tag → Nat) → Nat → List Event → Option (Option Error × Nat × List Event)
  | _, [], _, updated, tr => some (none, updated, tr)
  | 0, _ :: _, _, _, _ => none
  | fuel + 1, tag :: queue, cnt, updated, tr =>
    match getNodeByTag m tag with
    | .error e => some (some e, updated, tr)
    | .ok node =>
      let tr1 := tr ++ Event.update tag :: (if node.kind = .props then [Event.updateView tag] else [])
      let st := releaseChildren node.childrenTags (queue, cnt)
      updateLoop m fuel st.1 st.2 (updated + 1) tr1

/-- Iterations granted to the first loop: one per queue entry that can ever exist. -/
def discoverFuel (m : AnimatedNodesManager) (nodeTags : List Tag) : Nat :=
  nodeTags.length + (m.nodeByTag.map (fun e => e.2.childrenTags.length + 1)).sum

/-- The function `updateNodes`. The result is `none` only if an iteration bound was too
small. -/
def updateNodes (m : AnimatedNodesManager) (nodeTags : List Tag) : Option Outcome :=
  match discoverNodes m (discoverFuel m nodeTags) nodeTags [] (fun _ => 0) 0 with
  | none => none
  | some (.error e) => some { error := some e, state := m }
  | some (.ok (_, cnt, activeNodesCount)) =>
    match updateLoop m activeNodesCount (nodeTags.filter (fun t => cnt t = 0)) cnt 0 m.trace with
    | none => none
    | some (some e, _, tr) => some { error := some e, state := { m with trace := tr } }
    | some (none, updatedNodesCount, tr) =>
      if activeNodesCount ≠ updatedNodesCount then
        some { error := some (.notAllUpdated activeNodesCount updatedNodesCount),
               state := { m with trace := tr } }
      else some { error := none, state := { m with trace := tr } }

/-- Third loop of `runUpdates`: call the end callback of every finished animation with
`true` and erase it. -/
def finishAnimations : List Tag → AnimatedNodesManager → Outcome
  | [], m => { error := none, state := m }
  | animationId :: rest, m =>
    match m.animationById.lookup animationId with
    | none => { error := some (.animationNotFound animationId), state := m }
    | some driver =>
      finishAnimations rest
        { m.emit (.endCallback driver.endCallback_ true) with
            animationById := mapErase m.animationById animationId }

/-- The drivers after `runAnimationStep(frameTimeNanos)` was called on each. -/
def stepDrivers (ops : DriverOps) (frameTimeNanos : Nat) (l : List (Tag × AnimationDriver)) :
    List (Tag × AnimationDriver) :=
  l.map (fun e => (e.1, { e.2 with body := ops.runAnimationStep e.2.body frameTimeNanos }))

/-- The state of the manager when the first loop of `runUpdates` is over and
`m_updatedNodeTags` was cleared: every driver stepped, in map order. -/
def advanceDrivers (ops : DriverOps) (m : AnimatedNodesManager) (frameTimeNanos : Nat) :
    AnimatedNodesManager :=
  { m with animationById := stepDrivers ops frameTimeNanos m.animationById,
           updatedNodeTags := [],
           trace := m.trace ++ m.animationById.map (fun e => Event.runAnimationStep e.1 frameTimeNanos) }

/-- The vector `finishedAnimations` of `runUpdates`. -/
def finishedAnimations (ops : DriverOps) (m : AnimatedNodesManager) (frameTimeNanos : Nat) :
    List Tag :=
  ((stepDrivers ops frameTimeNanos m.animationById).filter
    (fun e => ops.hasFinished e.2.body)).map (fun e => e.1)

/-- The vector `updatedNodesList` of `runUpdates`: the elements of `m_updatedNodeTags`, each
once, after the target of every driver was inserted. -/
def updatedNodesList (m : AnimatedNodesManager) : List Tag :=
  (m.animationById.foldl (fun acc e => setInsert acc e.2.animatedValueTag)
    m.updatedNodeTags).dedup

/-- The function `runUpdates`. The result is `none` only if an iteration bound of
`updateNodes` was too small. -/
def runUpdates (ops : DriverOps) (m : AnimatedNodesManager) (frameTimeNanos : Nat) :
    Option Outcome :=
  match updateNodes (advanceDrivers ops m frameTimeNanos) (updatedNodesList m) with
  | none => none
  | some out =>
    match out.error with
    | some _ => some out
    | none =>
      let out2 := finishAnimations (finishedAnimations ops m frameTimeNanos) out.state
      match out2.error with
      | some _ => some out2
      | none =>
        if out2.state.animationById.isEmpty then
          some { error := none, state := { out2.state with isRunningAnimations := false } }
        else
          some { error := none,
                 state := { out2.state with isRunningAnimations := true }.emit .scheduleUpdate }

/-! ## Specification vocabulary -/

/-- The maps hold one entry per key and every driver is filed under its own id. -/
def AnimatedNodesManager.WF (m : AnimatedNodesManager) : Prop :=
  (m.animationById.map Prod.fst).Nodup ∧ ∀ e ∈ m.animationById, e.2.id = e.1

instance (m : AnimatedNodesManager) : Decidable m.WF := by
  unfold AnimatedNodesManager.WF; infer_instance

/-- An edge of the graph: `p` exists and lists `c` among its children. -/
def Edge (m : AnimatedNodesManager) (p c : Tag) : Prop :=
  ∃ node, getNodeByTag m p = .ok node ∧ c ∈ node.childrenTags

/-- The tags reachable from `roots` along child edges. -/
inductive Reach (m : AnimatedNodesManager) (roots : List Tag) : Tag → Prop
  | root {t : Tag} : t ∈ roots → Reach m roots t
  | step {p c : Tag} : Reach m roots p → Edge m p c → Reach m roots c

/-- The tags a pass starts from: the dirty set and the targets of the registered drivers. -/
def passRoots (m : AnimatedNodesManager) : List Tag :=
  m.updatedNodeTags ++ m.animationById.map (fun e => e.2.animatedValueTag)

/-- The calls made between state `m` and the later state `m2`. -/
def eventsSince (m m2 : AnimatedNodesManager) : List Event :=
  m2.trace.drop m.trace.length

/-- The child tags `getChildrenTags()` yields for the node under `t`; empty if there is no
such node. -/
def childrenOf (m : AnimatedNodesManager) (t : Tag) : List Tag :=
  match getNodeByTag m t with
  | .ok node => node.childrenTags
  | .error _ => []

/-- The number of child entries naming `c` among the nodes of `V`. -/
def indeg (m : AnimatedNodesManager) (V : List Tag) (c : Tag) : Nat :=
  (V.map (fun p => (childrenOf m p).count c)).sum

/-- The calls the second loop of `updateNodes` makes for one popped tag. -/
def nodeEvents (m : AnimatedNodesManager) (t : Tag) : List Event :=
  match getNodeByTag m t with
  | .ok node => Event.update t :: (if node.kind = .props then [Event.updateView t] else [])
  | .error _ => []

/-- The tags on which `update()` was called, in call order. -/
def updateCalls (evs : List Event) : List Tag :=
  evs.filterMap (fun e => match e with
    | .update t => some t
    | _ => none)

/-- Entries of the node map not visited yet, weighted by the queue slots they can fill. -/
def discoverWeight (m : AnimatedNodesManager) (visited : List Tag) : Nat :=
  ((m.nodeByTag.filter (fun e => decide (e.1 ∉ visited))).map
    (fun e => e.2.childrenTags.length + 1)).sum

/-- The drivers that report `hasFinished()` after their step of a pass at `frameTimeNanos`,
as they stand after that step. -/
def finishedDrivers (ops : DriverOps) (m : AnimatedNodesManager) (frameTimeNanos : Nat) :
    List (Tag × AnimationDriver) :=
  (stepDrivers ops frameTimeNanos m.animationById).filter (fun e => ops.hasFinished e.2.body)

/-- The drivers that do not report `hasFinished()` after their step of a pass. -/
def unfinishedDrivers (ops : DriverOps) (m : AnimatedNodesManager) (frameTimeNanos : Nat) :
    List (Tag × AnimationDriver) :=
  (stepDrivers ops frameTimeNanos m.animationById).filter (fun e => !ops.hasFinished e.2.body)

/-- The calls of the first loop of `runUpdates`. -/
def stepEvents (m : AnimatedNodesManager) (frameTimeNanos : Nat) : List Event :=
  m.animationById.map (fun e => Event.runAnimationStep e.1 frameTimeNanos)

/-! ## Example states -/

/-- A driver model for the examples: a step adds one to the progress, a driver has finished
when its progress reaches two, a reset swaps the configuration. -/
def exampleOps : DriverOps :=
  { construct := fun c => { config := c, progress := 0 },
    resetConfig := fun b c => { b with config := c },
    runAnimationStep := fun b _ => { b with progress := b.progress + 1 },
    hasFinished := fun b => decide (2 ≤ b.progress) }

/-- A node of the examples. -/
def exampleNode (tag : Tag) (kind : NodeKind) (type : String) (children : List Tag) :
    AnimatedNode :=
  { tag_ := tag, kind := kind, config := { type := type, payload := 0 }, childrenTags := children }

/-- A driver of the examples, with the given progress. -/
def exampleDriver (id target : Tag) (cb progress : Nat) : AnimationDriver :=
  { id := id, animatedValueTag := target, endCallback_ := cb,
    body := { config := { type := "frames", payload := 0 }, progress := progress } }

/-- Value node 1 feeds style node 2 and props node 3, node 2 feeds node 3; node 2 is dirty
and animation 7 drives node 1. -/
def exampleDag : AnimatedNodesManager :=
  { nodeByTag := [(1, exampleNode 1 .value "value" [2, 3]), (2, exampleNode 2 .style "style" [3]),
      (3, exampleNode 3 .props "props" [])],
    animationById := [(7, exampleDriver 7 1 100 0)],
    updatedNodeTags := [2],
    isRunningAnimations := true,
    trace := [] }

/-- The graph of `exampleDag` with an edge from node 3 back to node 2. -/
def exampleCycle : AnimatedNodesManager :=
  { nodeByTag := [(1, exampleNode 1 .value "value" [2, 3]), (2, exampleNode 2 .style "style" [3]),
      (3, exampleNode 3 .props "props" [2])],
    animationById := [(7, exampleDriver 7 1 100 0)],
    updatedNodeTags := [2],
    isRunningAnimations := true,
    trace := [] }

/-- The nodes of `exampleDag` with two drivers on node 1: animation 7 is one step from its
end, animation 8 two steps. -/
def exampleTwoDrivers : AnimatedNodesManager :=
  { exampleDag with animationById := [(7, exampleDriver 7 1 100 1), (8, exampleDriver 8 1 101 0)] }

/-- The nodes of `exampleDag` with animation 7 alone, one step from its end. -/
def exampleLastDriver : AnimatedNodesManager :=
  { exampleDag with animationById := [(7, exampleDriver 7 1 100 1)] }

/-! ## Commands and frame ticks -/

/-- The command surface of the manager, apart from `runUpdates`. -/
inductive Command
  | createNode (tag : Tag) (config : Config)
  | dropNode (tag : Tag)
  | connectNodes (parentTag childTag : Tag)
  | disconnectNodes (parentTag childTag : Tag)
  | connectNodeToView (nodeTag viewTag : Tag)
  | disconnectNodeFromView (nodeTag viewTag : Tag)
  | setValue (tag : Tag) (value : Int)
  | setOffset (tag : Tag) (offset : Int)
  | flattenOffset (tag : Tag)
  | extractOffset (tag : Tag)
  | getValue (tag : Tag)
  | startAnimatingNode (animationId nodeTag : Tag) (config : Config) (endCallback : Nat)
  | stopAnimation (animationId : Tag)
deriving DecidableEq, Repr

/-- Calling the member function a command names. -/
def Command.run (ops : DriverOps) (m : AnimatedNodesManager) : Command → Outcome
  | .createNode tag config => rnoh.createNode m tag config
  | .dropNode tag => rnoh.dropNode m tag
  | .connectNodes parentTag childTag => rnoh.connectNodes m parentTag childTag
  | .disconnectNodes parentTag childTag => rnoh.disconnectNodes m parentTag childTag
  | .connectNodeToView nodeTag viewTag => rnoh.connectNodeToView m nodeTag viewTag
  | .disconnectNodeFromView nodeTag viewTag => rnoh.disconnectNodeFromView m nodeTag viewTag
  | .setValue tag value => rnoh.setValue m tag value
  | .setOffset tag offset => rnoh.setOffset m tag offset
  | .flattenOffset tag => rnoh.flattenOffset m tag
  | .extractOffset tag => rnoh.extractOffset m tag
  | .getValue tag => rnoh.getValue m tag
  | .startAnimatingNode animationId nodeTag config endCallback =>
    rnoh.startAnimatingNode ops m animationId nodeTag config endCallback
  | .stopAnimation animationId => rnoh.stopAnimation m animationId

/-- What happens to a manager: a command is called, or a frame tick fires. -/
inductive Step
  | command (c : Command)
  | tick (frameTimeNanos : Nat)
deriving DecidableEq, Repr

/-- A manager together with the number of frame requests it has made through
`m_scheduleUpdateFn` that no tick has consumed yet. -/
structure Session where
  manager : AnimatedNodesManager
  pendingFrames : Nat
deriving DecidableEq, Repr

/-- A manager right after construction, with no frame requested. -/
def Session.start : Session :=
  { manager := AnimatedNodesManager.fresh, pendingFrames := 0 }

/-- Modelled from the spec: the scheduler that receives the frame requests and fires the
ticks is outside this file. Each call of `m_scheduleUpdateFn` adds one pending frame; a tick
consumes one pending frame and calls `runUpdates`. A command that throws leaves the session
running on the state it threw in. The result is `none` when a tick has no pending frame to
consume or its pass fails. -/
def Session.step (ops : DriverOps) (s : Session) : Step → Option Session
  | .command c =>
    let out := c.run ops s.manager
    some { manager := out.state,
           pendingFrames := s.pendingFrames +
             (eventsSince s.manager out.state).count Event.scheduleUpdate }
  | .tick frameTimeNanos =>
    if s.pendingFrames = 0 then none
    else
      match runUpdates ops s.manager frameTimeNanos with
      | none => none
      | some out =>
        match out.error with
        | some _ => none
        | none =>
          some { manager := out.state,
                 pendingFrames := s.pendingFrames - 1 +
                   (eventsSince s.manager out.state).count Event.scheduleUpdate }

/-- A sequence of commands and ticks, from the left. -/
def Session.run (ops : DriverOps) : List Step → Session → Option Session
  | [], s => some s
  | st :: rest, s =>
    match s.step ops st with
    | none => none
    | some s2 => Session.run ops rest s2

/-- The frame-subscription invariant: the driver map is well formed, one frame is pending
when the running flag is set and none when it is not, and the flag is set whenever a driver
is registered. -/
def Session.Inv (s : Session) : Prop :=
  s.manager.WF ∧
  s.pendingFrames = (if s.manager.isRunningAnimations then 1 else 0) ∧
  (s.manager.animationById ≠ [] → s.manager.isRunningAnimations = true)

/-- A change of state that keeps the running flag, adds no driver and requests no frame. -/
def Quiet (m m2 : AnimatedNodesManager) : Prop :=
  m2.animationById.Sublist m.animationById ∧
  m2.isRunningAnimations = m.isRunningAnimations ∧
  ∃ evs, m2.trace = m.trace ++ evs ∧ Event.scheduleUpdate ∉ evs

/-- Dirty node 1 lists node 2 and the tag 5, which has no node; node 2 lists node 4. -/
def exampleDangling : AnimatedNodesManager :=
  { nodeByTag := [(1, exampleNode 1 .value "value" [2, 5]), (2, exampleNode 2 .style "style" [4]),
      (4, exampleNode 4 .props "props" [])],
    animationById := [],
    updatedNodeTags := [1],
    isRunningAnimations := false,
    trace := [] }

/-- A fresh manager after value node 1 was created, animation 7 was started on it and
stopped again, with no tick in between. -/
def exampleStartedStopped : AnimatedNodesManager :=
  (stopAnimation
    (startAnimatingNode exampleOps
      (createNode AnimatedNodesManager.fresh 1 { type := "value", payload := 0 }).state
      7 1 { type := "frames", payload := 0 } 100).state 7).state

/-- The graph of `exampleCycle` with animation 7 one step from its end. -/
def exampleCycleFinishing : AnimatedNodesManager :=
  { exampleCycle with animationById := [(7, exampleDriver 7 1 100 1)] }

/-- Create value node 1, start animation 7 on it, and let two ticks pass. -/
def exampleSteps : List Step :=
  [.command (.createNode 1 { type := "value", payload := 0 }),
   .command (.startAnimatingNode 7 1 { type := "frames", payload := 0 } 100),
   .tick 5, .tick 6]

/-! ## Loop invariants -/

/-- Loop invariant of the first loop of `updateNodes`. -/
structure DiscInv (m : AnimatedNodesManager) (roots queue visited : List Tag)
    (cnt : Tag → Nat) (active : Nat) : Prop where
  nodup : visited.Nodup
  active_eq : active = visited.length
  cnt_eq : ∀ c, cnt c = indeg m visited c
  exist : ∀ t ∈ visited, ∃ node, getNodeByTag m t = .ok node
  reach : ∀ t, t ∈ visited ∨ t ∈ queue → Reach m roots t
  roots_in : ∀ r ∈ roots, r ∈ visited ∨ r ∈ queue
  closed : ∀ p ∈ visited, ∀ c ∈ childrenOf m p, c ∈ visited ∨ c ∈ queue

/-- Loop invariant of the second loop of `updateNodes`: `V` is the set found by the first
loop, `done` the tags updated so far in order, `queue` the pending ones. -/
structure UpdInv (m : AnimatedNodesManager) (V done queue : List Tag) (cnt : Tag → Nat) :
    Prop where
  nodup : (done ++ queue).Nodup
  sub : ∀ t, t ∈ done ∨ t ∈ queue → t ∈ V
  cnt_eq : ∀ c, cnt c + indeg m done c = indeg m V c
  zero_iff : ∀ c ∈ V, cnt c = 0 ↔ (c ∈ done ∨ c ∈ queue)
  ord : ∀ pre c post, done = pre ++ c :: post → ∀ p ∈ V, c ∈ childrenOf m p → p ∈ pre

/-! ## The first loop of `updateNodes` -/

theorem getNodeByTag_ok_iff (m : AnimatedNodesManager) (t : Tag) (node : AnimatedNode) :
    getNodeByTag m t = .ok node ↔ m.nodeByTag.lookup t = some node := by
  unfold getNodeByTag
  cases h : m.nodeByTag.lookup t <;> simp

theorem getNodeByTag_error (m : AnimatedNodesManager) (t : Tag) (e : Error)
    (h : getNodeByTag m t = .error e) : e = .nodeDoesNotExist t ∧ m.nodeByTag.lookup t = none := by
  unfold getNodeByTag at h
  cases h2 : m.nodeByTag.lookup t <;> simp [h2] at h
  exact ⟨h.symm, rfl⟩

theorem childrenOf_of_ok {m : AnimatedNodesManager} {t : Tag} {node : AnimatedNode}
    (h : getNodeByTag m t = .ok node) : childrenOf m t = node.childrenTags := by
  simp [childrenOf, h]

theorem edge_iff (m : AnimatedNodesManager) (p c : Tag) : Edge m p c ↔ c ∈ childrenOf m p := by
  unfold Edge childrenOf
  cases h : getNodeByTag m p <;> simp

theorem foldl_incrCount (cs : List Tag) (cnt : Tag → Nat) (c : Tag) :
    (cs.foldl incrCount cnt) c = cnt c + cs.count c := by
  induction cs generalizing cnt with
  | nil => simp
  | cons x xs ih =>
    simp only [List.foldl_cons, ih, incrCount, List.count_cons]
    by_cases h : x = c
    · subst h; simp; omega
    · have h2 : c ≠ x := fun e => h e.symm
      simp [Function.update_noteq h2, h]

theorem indeg_cons (m : AnimatedNodesManager) (V : List Tag) (t c : Tag) :
    indeg m (t :: V) c = (childrenOf m t).count c + indeg m V c := by
  simp [indeg]

theorem DiscInv.skip {m : AnimatedNodesManager} {roots queue visited : List Tag}
    {cnt : Tag → Nat} {active : Nat} {tag : Tag}
    (h : DiscInv m roots (tag :: queue) visited cnt active) (hv : tag ∈ visited) :
    DiscInv m roots queue visited cnt active where
  nodup := h.nodup
  active_eq := h.active_eq
  cnt_eq := h.cnt_eq
  exist := h.exist
  reach := fun t ht => h.reach t (by
    rcases ht with ht | ht
    · exact Or.inl ht
    · exact Or.inr (List.mem_cons_of_mem _ ht))
  roots_in := fun r hr => by
    rcases h.roots_in r hr with h1 | h1
    · exact Or.inl h1
    · rcases List.mem_cons.1 h1 with h2 | h2
      · exact Or.inl (h2 ▸ hv)
      · exact Or.inr h2
  closed := fun p hp c hc => by
    rcases h.closed p hp c hc with h1 | h1
    · exact Or.inl h1
    · rcases List.mem_cons.1 h1 with h2 | h2
      · exact Or.inl (h2 ▸ hv)
      · exact Or.inr h2

theorem DiscInv.visit {m : AnimatedNodesManager} {roots queue visited : List Tag}
    {cnt : Tag → Nat} {active : Nat} {tag : Tag} {node : AnimatedNode}
    (h : DiscInv m roots (tag :: queue) visited cnt active) (hv : tag ∉ visited)
    (hn : getNodeByTag m tag = .ok node) :
    DiscInv m roots (queue ++ node.childrenTags) (tag :: visited)
      (node.childrenTags.foldl incrCount cnt) (active + 1) where
  nodup := List.nodup_cons.2 ⟨hv, h.nodup⟩
  active_eq := by simp [h.active_eq]
  cnt_eq := fun c => by
    rw [foldl_incrCount, indeg_cons, childrenOf_of_ok hn, h.cnt_eq c]; omega
  exist := fun t ht => by
    rcases List.mem_cons.1 ht with h1 | h1
    · exact ⟨node, h1 ▸ hn⟩
    · exact h.exist t h1
  reach := fun t ht => by
    have htag : Reach m roots tag := h.reach tag (Or.inr (List.mem_cons_self _ _))
    rcases ht with ht | ht
    · rcases List.mem_cons.1 ht with h1 | h1
      · exact h1 ▸ htag
      · exact h.reach t (Or.inl h1)
    · rcases List.mem_append.1 ht with h1 | h1
      · exact h.reach t (Or.inr (List.mem_cons_of_mem _ h1))
      · exact Reach.step htag ⟨node, hn, h1⟩
  roots_in := fun r hr => by
    rcases h.roots_in r hr with h1 | h1
    · exact Or.inl (List.mem_cons_of_mem _ h1)
    · rcases List.mem_cons.1 h1 with h2 | h2
      · exact Or.inl (h2 ▸ List.mem_cons_self _ _)
      · exact Or.inr (List.mem_append_left _ h2)
  closed := fun p hp c hc => by
    rcases List.mem_cons.1 hp with h1 | h1
    · subst h1
      rw [childrenOf_of_ok hn] at hc
      exact Or.inr (List.mem_append_right _ hc)
    · rcases h.closed p h1 c hc with h2 | h2
      · exact Or.inl (List.mem_cons_of_mem _ h2)
      · rcases List.mem_cons.1 h2 with h3 | h3
        · exact Or.inl (h3 ▸ List.mem_cons_self _ _)
        · exact Or.inr (List.mem_append_left _ h3)

theorem discoverNodes_ok (m : AnimatedNodesManager) (roots : List Tag) :
    ∀ (fuel : Nat) (queue visited : List Tag) (cnt : Tag → Nat) (active : Nat)
      (V : List Tag) (cnt2 : Tag → Nat) (active2 : Nat),
      DiscInv m roots queue visited cnt active →
      discoverNodes m fuel queue visited cnt active = some (.ok (V, cnt2, active2)) →
      DiscInv m roots [] V cnt2 active2 := by
  intro fuel
  induction fuel with
  | zero =>
    intro queue visited cnt active V cnt2 active2 hinv h
    cases queue with
    | nil =>
      simp [discoverNodes] at h
      obtain ⟨h1, h2, h3⟩ := h
      subst h1 h2 h3
      exact hinv
    | cons tag queue => simp [discoverNodes] at h
  | succ fuel ih =>
    intro queue visited cnt active V cnt2 active2 hinv h
    cases queue with
    | nil =>
      simp [discoverNodes] at h
      obtain ⟨h1, h2, h3⟩ := h
      subst h1 h2 h3
      exact hinv
    | cons tag queue =>
      rw [discoverNodes] at h
      by_cases hv : tag ∈ visited
      · rw [if_pos hv] at h
        exact ih _ _ _ _ _ _ _ (hinv.skip hv) h
      · rw [if_neg hv] at h
        cases hn : getNodeByTag m tag with
        | error e => rw [hn] at h; simp at h
        | ok node =>
          rw [hn] at h
          exact ih _ _ _ _ _ _ _ (hinv.visit hv hn) h

theorem discoverNodes_error (m : AnimatedNodesManager) (roots : List Tag) :
    ∀ (fuel : Nat) (queue visited : List Tag) (cnt : Tag → Nat) (active : Nat) (e : Error),
      DiscInv m roots queue visited cnt active →
      discoverNodes m fuel queue visited cnt active = some (.error e) →
      ∃ t, e = .nodeDoesNotExist t ∧ Reach m roots t ∧ m.nodeByTag.lookup t = none := by
  intro fuel
  induction fuel with
  | zero =>
    intro queue visited cnt active e hinv h
    cases queue <;> simp [discoverNodes] at h
  | succ fuel ih =>
    intro queue visited cnt active e hinv h
    cases queue with
    | nil => simp [discoverNodes] at h
    | cons tag queue =>
      rw [discoverNodes] at h
      by_cases hv : tag ∈ visited
      · rw [if_pos hv] at h
        exact ih _ _ _ _ _ (hinv.skip hv) h
      · rw [if_neg hv] at h
        cases hn : getNodeByTag m tag with
        | error e2 =>
          rw [hn] at h
          simp at h
          subst h
          obtain ⟨h1, h2⟩ := getNodeByTag_error m tag e2 hn
          exact ⟨tag, h1, hinv.reach tag (Or.inr (List.mem_cons_self _ _)), h2⟩
        | ok node =>
          rw [hn] at h
          exact ih _ _ _ _ _ (hinv.visit hv hn) h

theorem weight_mono (l : List (Tag × AnimatedNode)) (visited : List Tag) (tag : Tag) :
    ((l.filter (fun e => decide (e.1 ∉ tag :: visited))).map
        (fun e => e.2.childrenTags.length + 1)).sum ≤
      ((l.filter (fun e => decide (e.1 ∉ visited))).map
        (fun e => e.2.childrenTags.length + 1)).sum := by
  induction l with
  | nil => simp
  | cons e es ih =>
    simp only [List.filter_cons]
    by_cases h1 : e.1 ∈ visited
    · have h2 : e.1 ∈ tag :: visited := List.mem_cons_of_mem _ h1
      simpa [h1, h2] using ih
    · by_cases h2 : e.1 = tag
      · have h3 : e.1 ∈ tag :: visited := h2 ▸ List.mem_cons_self _ _
        simp [h1, h3] at ih ⊢
        omega
      · have h3 : e.1 ∉ tag :: visited := by
          intro hh
          rcases List.mem_cons.1 hh with h4 | h4
          · exact h2 h4
          · exact h1 h4
        simp [h1, h3] at ih ⊢
        omega

theorem weight_visit (l : List (Tag × AnimatedNode)) (visited : List Tag) (tag : Tag)
    (node : AnimatedNode) (hl : l.lookup tag = some node) (hv : tag ∉ visited) :
    ((l.filter (fun e => decide (e.1 ∉ tag :: visited))).map
        (fun e => e.2.childrenTags.length + 1)).sum + (node.childrenTags.length + 1) ≤
      ((l.filter (fun e => decide (e.1 ∉ visited))).map
        (fun e => e.2.childrenTags.length + 1)).sum := by
  induction l with
  | nil => simp at hl
  | cons e es ih =>
    obtain ⟨k, b⟩ := e
    rw [List.lookup_cons] at hl
    by_cases hk : tag = k
    · subst hk
      simp at hl
      subst hl
      have h3 : tag ∈ tag :: visited := List.mem_cons_self _ _
      have hm := weight_mono es visited tag
      simp only [List.filter_cons]
      simp [hv] at hm ⊢
      omega
    · have hk2 : (tag == k) = false := by simpa using hk
      rw [hk2] at hl
      have ih2 := ih hl
      simp only [List.filter_cons]
      by_cases h1 : k ∈ visited
      · have h2 : k ∈ tag :: visited := List.mem_cons_of_mem _ h1
        simpa [h1, h2] using ih2
      · have h3 : k ∉ tag :: visited := by
          intro hh
          rcases List.mem_cons.1 hh with h4 | h4
          · exact hk h4.symm
          · exact h1 h4
        simp [h1, h3] at ih2 ⊢
        omega

theorem discoverNodes_fuel (m : AnimatedNodesManager) :
    ∀ (fuel : Nat) (queue visited : List Tag) (cnt : Tag → Nat) (active : Nat),
      queue.length + discoverWeight m visited ≤ fuel →
      ∃ r, discoverNodes m fuel queue visited cnt active = some r := by
  intro fuel
  induction fuel with
  | zero =>
    intro queue visited cnt active h
    cases queue with
    | nil => exact ⟨.ok (visited, cnt, active), by simp [discoverNodes]⟩
    | cons tag queue => simp at h
  | succ fuel ih =>
    intro queue visited cnt active h
    cases queue with
    | nil => exact ⟨.ok (visited, cnt, active), by simp [discoverNodes]⟩
    | cons tag queue =>
      rw [discoverNodes]
      by_cases hv : tag ∈ visited
      · rw [if_pos hv]
        apply ih
        simp at h
        omega
      · rw [if_neg hv]
        cases hn : getNodeByTag m tag with
        | error e => exact ⟨_, rfl⟩
        | ok node =>
          apply ih
          have hl : m.nodeByTag.lookup tag = some node := by
            unfold getNodeByTag at hn
            cases h2 : m.nodeByTag.lookup tag <;> simp [h2] at hn
            rw [hn]
          have hw := weight_visit m.nodeByTag visited tag node hl hv
          simp only [discoverWeight] at h ⊢
          simp at h ⊢
          simp at hw
          omega

theorem discoverWeight_nil (m : AnimatedNodesManager) (nodeTags : List Tag) :
    nodeTags.length + discoverWeight m [] = discoverFuel m nodeTags := by
  simp [discoverWeight, discoverFuel]

/-! ## The second loop of `updateNodes` -/

theorem sum_map_le_of_subset (f : Tag → Nat) (L V : List Tag) (hL : L.Nodup) (hV : V.Nodup)
    (hs : ∀ t ∈ L, t ∈ V) : (L.map f).sum ≤ (V.map f).sum := by
  rw [← List.sum_toFinset f hL, ← List.sum_toFinset f hV]
  apply Finset.sum_le_sum_of_subset
  intro x hx
  simp at hx ⊢
  exact hs x hx

theorem exists_pos_of_sum_map_lt (f : Tag → Nat) (L V : List Tag) (hL : L.Nodup) (hV : V.Nodup)
    (hs : ∀ t ∈ L, t ∈ V) (h : (L.map f).sum < (V.map f).sum) :
    ∃ p ∈ V, p ∉ L ∧ 0 < f p := by
  by_contra hcon
  push_neg at hcon
  have : (V.map f).sum = (L.map f).sum := by
    rw [← List.sum_toFinset f hL, ← List.sum_toFinset f hV]
    symm
    apply Finset.sum_subset
    · intro x hx
      simp at hx ⊢
      exact hs x hx
    · intro x hx hx2
      simp at hx hx2
      have := hcon x hx hx2
      omega
  omega

theorem indeg_append (m : AnimatedNodesManager) (L : List Tag) (p c : Tag) :
    indeg m (L ++ [p]) c = indeg m L c + (childrenOf m p).count c := by
  simp [indeg]

theorem indeg_add_le (m : AnimatedNodesManager) (L V : List Tag) (p c : Tag) (hL : L.Nodup)
    (hV : V.Nodup) (hs : ∀ t ∈ L, t ∈ V) (hp : p ∈ V) (hpL : p ∉ L) :
    indeg m L c + (childrenOf m p).count c ≤ indeg m V c := by
  have h := sum_map_le_of_subset (fun q => (childrenOf m q).count c) (p :: L) V
    (List.nodup_cons.2 ⟨hpL, hL⟩) hV (by
      intro t ht
      rcases List.mem_cons.1 ht with h1 | h1
      · exact h1 ▸ hp
      · exact hs t h1)
  simp [indeg] at h ⊢
  omega

theorem length_lt_of_not_mem (L V : List Tag) (p : Tag) (hL : L.Nodup)
    (hs : ∀ t ∈ L, t ∈ V) (hp : p ∈ V) (hpL : p ∉ L) : L.length < V.length := by
  have h : (p :: L).Subperm V := List.subperm_of_subset (List.nodup_cons.2 ⟨hpL, hL⟩) (by
    intro t ht
    rcases List.mem_cons.1 ht with h1 | h1
    · exact h1 ▸ hp
    · exact hs t h1)
  have := h.length_le
  simp at this
  omega

theorem releaseChildren_spec (cs : List Tag) :
    ∀ (queue : List Tag) (cnt : Tag → Nat), (∀ c, cs.count c ≤ cnt c) →
      (∀ c, (releaseChildren cs (queue, cnt)).2 c = cnt c - cs.count c) ∧
      ∃ new, (releaseChildren cs (queue, cnt)).1 = queue ++ new ∧ new.Nodup ∧
        ∀ c, c ∈ new ↔ (c ∈ cs ∧ cnt c = cs.count c) := by
  induction cs with
  | nil =>
    intro queue cnt _
    refine ⟨fun c => by simp [releaseChildren], [], by simp [releaseChildren], List.nodup_nil, ?_⟩
    intro c; simp
  | cons x xs ih =>
    intro queue cnt hle
    have hx : 1 ≤ cnt x := by
      have := hle x
      simp at this
      omega
    have hdec : ∀ c, decrCount cnt x c = if c = x then cnt x - 1 else cnt c := by
      intro c
      unfold decrCount
      by_cases hc : c = x
      · subst hc
        simp
        omega
      · simp [Function.update_noteq hc, hc]
    have hpre : ∀ c, xs.count c ≤ decrCount cnt x c := by
      intro c
      rw [hdec]
      have := hle c
      by_cases hc : c = x
      · subst hc
        simp at this ⊢
        omega
      · have hc2 : x ≠ c := fun e => hc e.symm
        simp [hc, List.count_cons, hc2] at this ⊢
        exact this
    have hxs : xs.count x ≤ cnt x - 1 := by
      have := hpre x
      rw [hdec] at this
      simpa using this
    rw [releaseChildren]
    obtain ⟨ih1, new, ih2, ih3, ih4⟩ :=
      ih (if decrCount cnt x x = 0 then queue ++ [x] else queue) (decrCount cnt x) hpre
    refine ⟨?_, ?_⟩
    · intro c
      rw [ih1 c, hdec]
      by_cases hc : c = x
      · subst hc
        simp
        omega
      · have hc2 : x ≠ c := fun e => hc e.symm
        simp [hc, List.count_cons, hc2]
    · by_cases hz : decrCount cnt x x = 0
      · rw [if_pos hz] at ih2 ⊢
        have hz2 : cnt x = 1 := by
          rw [hdec] at hz
          simp at hz
          omega
        have hx0 : xs.count x = 0 := by omega
        have hxn : x ∉ new := by
          intro hmem
          have := ((ih4 x).1 hmem).1
          exact (List.count_eq_zero.1 hx0) this
        refine ⟨x :: new, by rw [ih2]; simp, List.nodup_cons.2 ⟨hxn, ih3⟩, ?_⟩
        intro c
        by_cases hc : c = x
        · subst hc
          simp [hz2, hx0]
        · have hc2 : x ≠ c := fun e => hc e.symm
          rw [List.mem_cons, ih4 c, hdec]
          simp [hc, List.count_cons, hc2]
      · rw [if_neg hz] at ih2 ⊢
        have hz2 : cnt x - 1 ≠ 0 := by
          rw [hdec] at hz
          simpa using hz
        refine ⟨new, ih2, ih3, ?_⟩
        intro c
        by_cases hc : c = x
        · subst hc
          rw [ih4 c, hdec]
          simp
          constructor
          · rintro ⟨_, h2⟩
            omega
          · intro h2
            refine ⟨?_, by omega⟩
            apply List.count_pos_iff.1
            omega
        · have hc2 : x ≠ c := fun e => hc e.symm
          rw [ih4 c, hdec]
          simp [hc, List.count_cons, hc2]


theorem UpdInv.done_nodup {m : AnimatedNodesManager} {V done queue : List Tag} {cnt : Tag → Nat}
    (h : UpdInv m V done queue cnt) : done.Nodup :=
  (List.nodup_append.1 h.nodup).1

theorem UpdInv.parents_done {m : AnimatedNodesManager} {V done queue : List Tag}
    {cnt : Tag → Nat} (h : UpdInv m V done queue cnt) (hV : V.Nodup) {c : Tag} (hcV : c ∈ V)
    (hc : c ∈ done ∨ c ∈ queue) {p : Tag} (hp : p ∈ V) (he : c ∈ childrenOf m p) : p ∈ done := by
  by_contra hpd
  have h0 : cnt c = 0 := (h.zero_iff c hcV).2 hc
  have h1 := h.cnt_eq c
  have h2 := indeg_add_le m done V p c h.done_nodup hV (fun t ht => h.sub t (Or.inl ht)) hp hpd
  have h3 : 0 < (childrenOf m p).count c := List.count_pos_iff.2 he
  omega

theorem UpdInv.step {m : AnimatedNodesManager} {V done rest : List Tag} {cnt : Tag → Nat}
    {p : Tag} {node : AnimatedNode} (h : UpdInv m V done (p :: rest) cnt) (hV : V.Nodup)
    (hcl : ∀ q ∈ V, ∀ c ∈ childrenOf m q, c ∈ V) (hn : getNodeByTag m p = .ok node) :
    UpdInv m V (done ++ [p]) (releaseChildren node.childrenTags (rest, cnt)).1
      (releaseChildren node.childrenTags (rest, cnt)).2 := by
  have hch : childrenOf m p = node.childrenTags := childrenOf_of_ok hn
  have hpV : p ∈ V := h.sub p (Or.inr (List.mem_cons_self _ _))
  have hdn : done.Nodup := h.done_nodup
  have hpd : p ∉ done := by
    intro hp
    have := List.disjoint_of_nodup_append h.nodup hp
    exact this (List.mem_cons_self _ _)
  have hle : ∀ c, node.childrenTags.count c ≤ cnt c := by
    intro c
    have h1 := h.cnt_eq c
    have h2 := indeg_add_le m done V p c hdn hV (fun t ht => h.sub t (Or.inl ht)) hpV hpd
    rw [hch] at h2
    omega
  obtain ⟨hc2, new, hq, hnew, hmem⟩ := releaseChildren_spec node.childrenTags rest cnt hle
  have hnewV : ∀ c ∈ new, c ∈ V := fun c hc =>
    hcl p hpV c (hch ▸ ((hmem c).1 hc).1)
  have hnew_fresh : ∀ c ∈ new, ¬ (c ∈ done ∨ c ∈ p :: rest) := by
    intro c hc hin
    have h0 := (h.zero_iff c (hnewV c hc)).2 hin
    have h1 := (hmem c).1 hc
    have h3 : 0 < node.childrenTags.count c := List.count_pos_iff.2 h1.1
    omega
  rw [hq]
  refine ⟨?_, ?_, ?_, ?_, ?_⟩
  · have e : done ++ [p] ++ (rest ++ new) = (done ++ p :: rest) ++ new := by simp
    rw [e]
    refine List.nodup_append.2 ⟨h.nodup, hnew, ?_⟩
    intro c hc1 hc2
    exact hnew_fresh c hc2 (by
      rcases List.mem_append.1 hc1 with h1 | h1
      · exact Or.inl h1
      · exact Or.inr h1)
  · intro t ht
    rcases ht with ht | ht
    · rcases List.mem_append.1 ht with h1 | h1
      · exact h.sub t (Or.inl h1)
      · simp at h1
        exact h1 ▸ hpV
    · rcases List.mem_append.1 ht with h1 | h1
      · exact h.sub t (Or.inr (List.mem_cons_of_mem _ h1))
      · exact hnewV t h1
  · intro c
    rw [hc2 c, indeg_append, hch]
    have h1 := h.cnt_eq c
    have h2 := hle c
    omega
  · intro c hcV
    rw [hc2 c]
    by_cases hin : c ∈ done ∨ c ∈ p :: rest
    · have h0 := (h.zero_iff c hcV).2 hin
      constructor
      · intro _
        rcases hin with h1 | h1
        · exact Or.inl (List.mem_append_left _ h1)
        · rcases List.mem_cons.1 h1 with h2 | h2
          · exact Or.inl (by simp [h2])
          · exact Or.inr (List.mem_append_left _ h2)
      · intro _
        omega
    · have h0 : cnt c ≠ 0 := fun e => hin ((h.zero_iff c hcV).1 e)
      have h2 := hle c
      constructor
      · intro hz
        have h3 : cnt c = node.childrenTags.count c := by omega
        have h4 : c ∈ node.childrenTags := by
          apply List.count_pos_iff.1
          omega
        exact Or.inr (List.mem_append_right _ ((hmem c).2 ⟨h4, h3⟩))
      · intro hr
        have h5 : c ∈ new := by
          rcases hr with h1 | h1
          · rcases List.mem_append.1 h1 with h2 | h2
            · exact absurd (Or.inl h2) hin
            · simp at h2
              exact absurd (Or.inr (h2 ▸ List.mem_cons_self _ _)) hin
          · rcases List.mem_append.1 h1 with h2 | h2
            · exact absurd (Or.inr (List.mem_cons_of_mem _ h2)) hin
            · exact h2
        have := ((hmem c).1 h5).2
        omega
  · intro pre c post hd q hq hqc
    rcases List.append_eq_append_iff.1 hd with ⟨a, h1, h2⟩ | ⟨b, h1, h2⟩
    · -- [p] = a ++ c :: post
      cases a with
      | nil =>
        simp at h2
        obtain ⟨h3, h4⟩ := h2
        subst h3
        simp at h1
        rw [h1]
        exact h.parents_done hV hpV (Or.inr (List.mem_cons_self _ _)) hq hqc
      | cons a0 as =>
        simp at h2
    · cases b with
      | nil =>
        simp at h2 h1
        obtain ⟨h3, h4⟩ := h2
        subst h3
        rw [← h1]
        exact h.parents_done hV hpV (Or.inr (List.mem_cons_self _ _)) hq hqc
      | cons b0 bs =>
        simp at h2
        obtain ⟨h3, h4⟩ := h2
        subst h3
        exact h.ord pre c bs h1 q hq hqc

theorem updateLoop_spec (m : AnimatedNodesManager) (V : List Tag) (tr0 : List Event)
    (hV : V.Nodup) (hex : ∀ t ∈ V, ∃ node, getNodeByTag m t = .ok node)
    (hcl : ∀ q ∈ V, ∀ c ∈ childrenOf m q, c ∈ V) :
    ∀ (fuel : Nat) (done queue : List Tag) (cnt : Tag → Nat),
      UpdInv m V done queue cnt → V.length ≤ fuel + done.length →
      ∃ done2 cnt2, UpdInv m V done2 [] cnt2 ∧
        updateLoop m fuel queue cnt done.length (tr0 ++ done.flatMap (nodeEvents m)) =
          some (none, done2.length, tr0 ++ done2.flatMap (nodeEvents m)) := by
  intro fuel
  induction fuel with
  | zero =>
    intro done queue cnt hinv hfuel
    cases queue with
    | nil => exact ⟨done, cnt, hinv, by simp [updateLoop]⟩
    | cons p rest =>
      exfalso
      have hpd : p ∉ done := by
        intro hp
        exact List.disjoint_of_nodup_append hinv.nodup hp (List.mem_cons_self _ _)
      have := length_lt_of_not_mem done V p hinv.done_nodup (fun t ht => hinv.sub t (Or.inl ht))
        (hinv.sub p (Or.inr (List.mem_cons_self _ _))) hpd
      omega
  | succ fuel ih =>
    intro done queue cnt hinv hfuel
    cases queue with
    | nil => exact ⟨done, cnt, hinv, by simp [updateLoop]⟩
    | cons p rest =>
      obtain ⟨node, hn⟩ := hex p (hinv.sub p (Or.inr (List.mem_cons_self _ _)))
      have hstep := hinv.step hV hcl hn
      obtain ⟨done2, cnt2, h1, h2⟩ := ih (done ++ [p]) _ _ hstep (by simp; omega)
      refine ⟨done2, cnt2, h1, ?_⟩
      rw [updateLoop, hn]
      simp only []
      have e1 : (done ++ [p]).length = done.length + 1 := by simp
      have e2 : tr0 ++ (done ++ [p]).flatMap (nodeEvents m) =
          tr0 ++ done.flatMap (nodeEvents m) ++
            Event.update p :: (if node.kind = .props then [Event.updateView p] else []) := by
        simp [List.flatMap_append, nodeEvents, hn]
      rw [e1, e2] at h2
      exact h2

/-! ## The function `updateNodes` -/

theorem DiscInv.at_start (m : AnimatedNodesManager) (nodeTags : List Tag) :
    DiscInv m nodeTags nodeTags [] (fun _ => 0) 0 where
  nodup := List.nodup_nil
  active_eq := rfl
  cnt_eq := fun c => by simp [indeg]
  exist := fun t ht => by simp at ht
  reach := fun t ht => by
    rcases ht with ht | ht
    · simp at ht
    · exact Reach.root ht
  roots_in := fun r hr => Or.inr hr
  closed := fun p hp => by simp at hp

theorem DiscInv.mem_of_reach {m : AnimatedNodesManager} {roots V : List Tag} {cnt : Tag → Nat}
    {active : Nat} (h : DiscInv m roots [] V cnt active) {t : Tag} (ht : Reach m roots t) :
    t ∈ V := by
  induction ht with
  | root hr =>
    rcases h.roots_in _ hr with h1 | h1
    · exact h1
    · simp at h1
  | step _ he ih =>
    rcases h.closed _ ih _ ((edge_iff m _ _).1 he) with h1 | h1
    · exact h1
    · simp at h1

theorem UpdInv.at_roots {m : AnimatedNodesManager} {nodeTags V : List Tag} {cnt : Tag → Nat}
    {active : Nat} (h : DiscInv m nodeTags [] V cnt active) (hnd : nodeTags.Nodup) :
    UpdInv m V [] (nodeTags.filter (fun t => cnt t = 0)) cnt where
  nodup := by simpa using hnd.filter _
  sub := fun t ht => by
    rcases ht with ht | ht
    · simp at ht
    · exact h.mem_of_reach (Reach.root (List.mem_of_mem_filter ht))
  cnt_eq := fun c => by simp [indeg, h.cnt_eq c]
  zero_iff := fun c hc => by
    constructor
    · intro hz
      right
      have hr := h.reach c (Or.inl hc)
      cases hr with
      | root hroot => exact List.mem_filter.2 ⟨hroot, by simpa using hz⟩
      | step hp he =>
        rename_i p
        exfalso
        have hpV := h.mem_of_reach hp
        have h2 := indeg_add_le m [] V p c List.nodup_nil h.nodup (by simp) hpV (by simp)
        have h3 : 0 < (childrenOf m p).count c := List.count_pos_iff.2 ((edge_iff m _ _).1 he)
        have h4 := h.cnt_eq c
        simp [indeg] at h2
        simp [indeg] at h4
        omega
    · intro hz
      rcases hz with hz | hz
      · simp at hz
      · simpa using (List.mem_filter.1 hz).2
  ord := fun pre c post hd => by simp at hd

theorem UpdInv.stuck {m : AnimatedNodesManager} {V done : List Tag} {cnt : Tag → Nat}
    (h : UpdInv m V done [] cnt) (hV : V.Nodup) :
    ∀ u ∈ V, u ∉ done → ∃ p ∈ V, p ∉ done ∧ u ∈ childrenOf m p := by
  intro u hu hud
  have h0 : cnt u ≠ 0 := fun e => by
    rcases (h.zero_iff u hu).1 e with h1 | h1
    · exact hud h1
    · simp at h1
  have h1 := h.cnt_eq u
  obtain ⟨p, hp, hpd, hpos⟩ := exists_pos_of_sum_map_lt (fun q => (childrenOf m q).count u) done V
    h.done_nodup hV (fun t ht => h.sub t (Or.inl ht)) (by simp only [indeg] at h1; omega)
  exact ⟨p, hp, hpd, List.count_pos_iff.1 hpos⟩

/-- What `updateNodes` does on a list of distinct tags. -/
theorem updateNodes_spec (m : AnimatedNodesManager) (nodeTags : List Tag)
    (hnd : nodeTags.Nodup) :
    (∃ t, Reach m nodeTags t ∧ m.nodeByTag.lookup t = none ∧
      updateNodes m nodeTags = some { error := some (.nodeDoesNotExist t), state := m }) ∨
    (∃ V done : List Tag, V.Nodup ∧ (∀ t, t ∈ V ↔ Reach m nodeTags t) ∧
      (∀ t ∈ V, ∃ node, getNodeByTag m t = .ok node) ∧ done.Nodup ∧ (∀ t ∈ done, t ∈ V) ∧
      (∀ pre c post, done = pre ++ c :: post → ∀ p ∈ V, c ∈ childrenOf m p → p ∈ pre) ∧
      (∀ u ∈ V, u ∉ done → ∃ p ∈ V, p ∉ done ∧ u ∈ childrenOf m p) ∧
      updateNodes m nodeTags = some
        { error := if V.length ≠ done.length then some (.notAllUpdated V.length done.length)
                   else none,
          state := { m with trace := m.trace ++ done.flatMap (nodeEvents m) } }) := by
  obtain ⟨r, hr⟩ := discoverNodes_fuel m (discoverFuel m nodeTags) nodeTags [] (fun _ => 0) 0
    (le_of_eq (discoverWeight_nil m nodeTags))
  cases r with
  | error e =>
    left
    obtain ⟨t, h1, h2, h3⟩ := discoverNodes_error m nodeTags _ _ _ _ _ e (DiscInv.at_start m nodeTags) hr
    subst h1
    exact ⟨t, h2, h3, by simp [updateNodes, hr]⟩
  | ok res =>
    right
    obtain ⟨V, cnt, active⟩ := res
    have hd := discoverNodes_ok m nodeTags _ _ _ _ _ V cnt active (DiscInv.at_start m nodeTags) hr
    have hcl : ∀ q ∈ V, ∀ c ∈ childrenOf m q, c ∈ V := by
      intro q hq c hc
      rcases hd.closed q hq c hc with h1 | h1
      · exact h1
      · simp at h1
    have hact : active = V.length := hd.active_eq
    subst hact
    obtain ⟨done, cnt2, hu, hloop⟩ := updateLoop_spec m V m.trace hd.nodup hd.exist hcl V.length []
      _ cnt (UpdInv.at_roots hd hnd) (by simp)
    simp only [List.length_nil, List.flatMap_nil, List.append_nil] at hloop
    refine ⟨V, done, hd.nodup, ?_, hd.exist, hu.done_nodup, fun t ht => hu.sub t (Or.inl ht),
      hu.ord, hu.stuck hd.nodup, ?_⟩
    · intro t
      exact ⟨fun ht => hd.reach t (Or.inl ht), fun ht => hd.mem_of_reach ht⟩
    · simp only [updateNodes, hr, hloop]
      split <;> rfl

/-! ## Cycles and update order -/

/-- If no reachable tag lies on a cycle, a set of tags closed under "has a pending parent"
is empty: every reachable tag has been updated. -/
theorem all_done_of_acyclic (m : AnimatedNodesManager) (roots V done : List Tag)
    (hV : ∀ t, t ∈ V ↔ Reach m roots t)
    (hac : ∀ t, Reach m roots t → ¬ Relation.TransGen (Edge m) t t)
    (hstuck : ∀ u ∈ V, u ∉ done → ∃ p ∈ V, p ∉ done ∧ u ∈ childrenOf m p) :
    ∀ u ∈ V, u ∈ done := by
  let r : {x // x ∈ V} → {x // x ∈ V} → Prop := fun a b => Relation.TransGen (Edge m) a.1 b.1
  haveI : IsTrans {x // x ∈ V} r := ⟨fun a b c hab hbc => Relation.TransGen.trans hab hbc⟩
  haveI : IsIrrefl {x // x ∈ V} r := ⟨fun a ha => hac a.1 ((hV a.1).1 a.2) ha⟩
  have hwf : WellFounded r := Finite.wellFounded_of_trans_of_irrefl r
  intro u hu
  by_contra hud
  obtain ⟨a, ha, hmin⟩ := hwf.has_min {a | a.1 ∉ done} ⟨⟨u, hu⟩, hud⟩
  obtain ⟨p, hp, hpd, hpe⟩ := hstuck a.1 a.2 ha
  exact hmin ⟨p, hp⟩ hpd (Relation.TransGen.single ((edge_iff m _ _).2 hpe))

theorem reach_of_transGen (m : AnimatedNodesManager) (roots : List Tag) {a b : Tag}
    (ha : Reach m roots a) (h : Relation.TransGen (Edge m) a b) : Reach m roots b := by
  induction h with
  | single he => exact Reach.step ha he
  | tail _ he ih => exact Reach.step ih he

/-- In an update order that puts parents first, whatever reaches `b` stands before `b`. -/
theorem ancestors_before (m : AnimatedNodesManager) (roots V done : List Tag)
    (hV : ∀ t, t ∈ V ↔ Reach m roots t)
    (hord : ∀ pre c post, done = pre ++ c :: post → ∀ p ∈ V, c ∈ childrenOf m p → p ∈ pre)
    {a b : Tag} (ha : a ∈ V) (h : Relation.TransGen (Edge m) a b) :
    ∀ pre post, done = pre ++ b :: post → a ∈ pre := by
  induction h with
  | single he =>
    intro pre post hd
    exact hord pre _ post hd a ha ((edge_iff m _ _).1 he)
  | tail hab he ih =>
    rename_i b1 c1
    intro pre post hd
    have hb1 : b1 ∈ V := (hV b1).2 (reach_of_transGen m roots ((hV a).1 ha) hab)
    have h1 : b1 ∈ pre := hord pre _ post hd b1 hb1 ((edge_iff m _ _).1 he)
    obtain ⟨s, t, hst⟩ := List.append_of_mem h1
    have h2 := ih s (t ++ c1 :: post) (by rw [hd, hst]; simp)
    rw [hst]
    exact List.mem_append_left _ h2

theorem not_done_of_cycle (m : AnimatedNodesManager) (roots V done : List Tag)
    (hV : ∀ t, t ∈ V ↔ Reach m roots t) (hnd : done.Nodup)
    (hord : ∀ pre c post, done = pre ++ c :: post → ∀ p ∈ V, c ∈ childrenOf m p → p ∈ pre)
    {t : Tag} (ht : t ∈ V) (h : Relation.TransGen (Edge m) t t) : t ∉ done := by
  intro htd
  obtain ⟨pre, post, hd⟩ := List.append_of_mem htd
  have h1 := ancestors_before m roots V done hV hord ht h pre post hd
  rw [hd] at hnd
  have := (List.nodup_append.1 hnd).2.2
  exact this h1 (List.mem_cons_self _ _)

theorem length_eq_of_all_done (V done : List Tag) (hV : V.Nodup) (hnd : done.Nodup)
    (hsub : ∀ t ∈ done, t ∈ V) (hall : ∀ u ∈ V, u ∈ done) : V.length = done.length := by
  have h1 := (List.subperm_of_subset hV hall).length_le
  have h2 := (List.subperm_of_subset hnd hsub).length_le
  omega

theorem reach_congr {m1 m2 : AnimatedNodesManager} {r1 r2 : List Tag}
    (hm : m1.nodeByTag = m2.nodeByTag) (hr : ∀ t, t ∈ r1 → t ∈ r2) {t : Tag}
    (h : Reach m1 r1 t) : Reach m2 r2 t := by
  induction h with
  | root hroot => exact Reach.root (hr _ hroot)
  | step _ he ih =>
    obtain ⟨node, hn, hc⟩ := he
    refine Reach.step ih ⟨node, ?_, hc⟩
    simpa [getNodeByTag, hm] using hn

theorem mem_foldl_setInsert (l : List (Tag × AnimationDriver)) (init : List Tag) (t : Tag) :
    t ∈ l.foldl (fun acc e => setInsert acc e.2.animatedValueTag) init ↔
      t ∈ init ∨ t ∈ l.map (fun e => e.2.animatedValueTag) := by
  induction l generalizing init with
  | nil => simp
  | cons e es ih =>
    rw [List.foldl_cons, ih]
    unfold setInsert
    by_cases h : e.2.animatedValueTag ∈ init
    · simp [h]
      constructor
      · rintro (h1 | h1)
        · exact Or.inl h1
        · exact Or.inr (Or.inr h1)
      · rintro (h1 | h1 | h1)
        · exact Or.inl h1
        · exact Or.inl (h1 ▸ h)
        · exact Or.inr h1
    · simp [h]
      tauto

theorem mem_updatedNodesList (m : AnimatedNodesManager) (t : Tag) :
    t ∈ updatedNodesList m ↔ t ∈ passRoots m := by
  simp [updatedNodesList, passRoots, mem_foldl_setInsert]

theorem updatedNodesList_nodup (m : AnimatedNodesManager) : (updatedNodesList m).Nodup :=
  List.nodup_dedup _

/-! ## The maps and the third loop of `runUpdates` -/

theorem lookup_mapErase_ne {β : Type} (l : List (Tag × β)) {k k2 : Tag} (h : k ≠ k2) :
    (mapErase l k2).lookup k = l.lookup k := by
  induction l with
  | nil => simp [mapErase]
  | cons e es ih =>
    obtain ⟨a, b⟩ := e
    unfold mapErase at ih ⊢
    by_cases h1 : a = k2
    · subst h1
      have h2 : (k == a) = false := by simpa using h
      simp [List.filter_cons, List.lookup_cons, h2, ih]
    · by_cases h3 : k = a
      · subst h3
        simp [List.filter_cons, h1]
      · have h2 : (k == a) = false := by simpa using h3
        simp [List.filter_cons, h1, List.lookup_cons, h2, ih]

theorem lookup_mapErase_self {β : Type} (l : List (Tag × β)) (k : Tag) :
    (mapErase l k).lookup k = none := by
  simp only [mapErase, List.lookup_eq_none_iff, List.mem_filter]
  intro e he
  have := he.2
  simp at this ⊢
  exact fun h => this h.symm

theorem lookup_of_mem_nodup {β : Type} (l : List (Tag × β)) (h : (l.map Prod.fst).Nodup)
    {e : Tag × β} (he : e ∈ l) : l.lookup e.1 = some e.2 := by
  induction l with
  | nil => simp at he
  | cons x xs ih =>
    obtain ⟨a, b⟩ := x
    simp only [List.map_cons, List.nodup_cons] at h
    rcases List.mem_cons.1 he with h1 | h1
    · subst h1
      simp
    · have hne : e.1 ≠ a := by
        intro heq
        apply h.1
        rw [← heq]
        exact List.mem_map_of_mem _ h1
      have h2 : (e.1 == a) = false := by simpa using hne
      rw [List.lookup_cons, h2]
      exact ih h.2 h1

theorem mem_of_lookup {β : Type} (l : List (Tag × β)) {k : Tag} {v : β}
    (h : l.lookup k = some v) : (k, v) ∈ l := by
  induction l with
  | nil => simp at h
  | cons x xs ih =>
    obtain ⟨a, b⟩ := x
    rw [List.lookup_cons] at h
    by_cases h1 : k = a
    · subst h1
      simp at h
      simp [h]
    · have h2 : (k == a) = false := by simpa using h1
      rw [h2] at h
      exact List.mem_cons_of_mem _ (ih h)

/-- The calls `finishAnimations` makes for the ids `ids`, read off the map `l`. -/
theorem finishAnimations_spec :
    ∀ (ids : List Tag) (m : AnimatedNodesManager), ids.Nodup →
      (∀ id ∈ ids, ∃ d, m.animationById.lookup id = some d) →
      finishAnimations ids m =
        { error := none,
          state := { m with
            trace := m.trace ++ ids.filterMap (fun id =>
              (m.animationById.lookup id).map (fun d => Event.endCallback d.endCallback_ true)),
            animationById := m.animationById.filter (fun e => decide (e.1 ∉ ids)) } } := by
  intro ids
  induction ids with
  | nil => intro m _ _; simp [finishAnimations]
  | cons id rest ih =>
    intro m hnd hex
    obtain ⟨d, hd⟩ := hex id (List.mem_cons_self _ _)
    have hnd2 := List.nodup_cons.1 hnd
    rw [finishAnimations, hd]
    simp only []
    have hlook : ∀ k ∈ rest, (mapErase m.animationById id).lookup k = m.animationById.lookup k := by
      intro k hk
      apply lookup_mapErase_ne
      intro e
      exact hnd2.1 (e ▸ hk)
    rw [ih _ hnd2.2 (by
      intro k hk
      obtain ⟨d2, hd2⟩ := hex k (List.mem_cons_of_mem _ hk)
      exact ⟨d2, by simpa [AnimatedNodesManager.emit, hlook k hk] using hd2⟩)]
    have e1 : rest.filterMap (fun k =>
        ((mapErase m.animationById id).lookup k).map
          (fun d => Event.endCallback d.endCallback_ true)) =
        rest.filterMap (fun k =>
          (m.animationById.lookup k).map (fun d => Event.endCallback d.endCallback_ true)) := by
      apply List.filterMap_congr
      intro k hk
      rw [hlook k hk]
    have e2 : (mapErase m.animationById id).filter (fun e => decide (e.1 ∉ rest)) =
        m.animationById.filter (fun e => decide (e.1 ∉ id :: rest)) := by
      unfold mapErase
      rw [List.filter_filter]
      apply List.filter_congr
      intro x _
      by_cases h1 : x.1 = id <;> by_cases h2 : x.1 ∈ rest <;> simp [h1, h2]
    simp only [AnimatedNodesManager.emit, e1, e2, List.filterMap_cons, hd, Option.map_some',
      List.append_assoc, List.singleton_append]

/-- Whatever happens in `finishAnimations`, it only appends end callbacks with `true` and
only touches the driver map. -/
theorem finishAnimations_frame :
    ∀ (ids : List Tag) (m : AnimatedNodesManager),
      ∃ cbs, (finishAnimations ids m).state.trace = m.trace ++ cbs ∧
        (∀ e ∈ cbs, ∃ cb, e = Event.endCallback cb true) ∧
        (finishAnimations ids m).state.nodeByTag = m.nodeByTag := by
  intro ids
  induction ids with
  | nil => intro m; exact ⟨[], by simp [finishAnimations]⟩
  | cons id rest ih =>
    intro m
    rw [finishAnimations]
    cases hd : m.animationById.lookup id with
    | none => exact ⟨[], by simp⟩
    | some d =>
      simp only []
      obtain ⟨cbs, h1, h2, h3⟩ := ih
        { m.emit (.endCallback d.endCallback_ true) with
            animationById := mapErase m.animationById id }
      refine ⟨Event.endCallback d.endCallback_ true :: cbs, ?_, ?_, ?_⟩
      · rw [h1]; simp [AnimatedNodesManager.emit]
      · intro e he
        rcases List.mem_cons.1 he with h4 | h4
        · exact ⟨_, h4⟩
        · exact h2 e h4
      · rw [h3]; rfl

/-! ## The function `runUpdates` -/

theorem stepDrivers_keys (ops : DriverOps) (time : Nat) (l : List (Tag × AnimationDriver)) :
    (stepDrivers ops time l).map Prod.fst = l.map Prod.fst := by
  simp [stepDrivers, Function.comp_def]

theorem updateCalls_append (a b : List Event) :
    updateCalls (a ++ b) = updateCalls a ++ updateCalls b := by
  simp [updateCalls, List.filterMap_append]

theorem updateCalls_stepEvents (m : AnimatedNodesManager) (time : Nat) :
    updateCalls (stepEvents m time) = [] := by
  simp [updateCalls, stepEvents, List.filterMap_map, Function.comp_def]

theorem updateCalls_eq_nil (l : List Event)
    (h : ∀ e ∈ l, (∃ cb, e = Event.endCallback cb true) ∨ e = Event.scheduleUpdate) :
    updateCalls l = [] := by
  simp only [updateCalls, List.filterMap_eq_nil_iff]
  intro e he
  rcases h e he with ⟨cb, h1⟩ | h1 <;> subst h1 <;> rfl

theorem updateCalls_nodeEvents (m : AnimatedNodesManager) (done : List Tag)
    (hex : ∀ t ∈ done, ∃ node, getNodeByTag m t = .ok node) :
    updateCalls (done.flatMap (nodeEvents m)) = done := by
  induction done with
  | nil => simp [updateCalls]
  | cons t ts ih =>
    obtain ⟨node, hn⟩ := hex t (List.mem_cons_self _ _)
    rw [List.flatMap_cons, updateCalls_append, ih (fun x hx => hex x (List.mem_cons_of_mem _ hx))]
    by_cases hk : node.kind = .props <;> simp [updateCalls, nodeEvents, hn, hk]

theorem eventsSince_append (m m2 : AnimatedNodesManager) (evs : List Event)
    (h : m2.trace = m.trace ++ evs) : eventsSince m m2 = evs := by
  simp [eventsSince, h]

/-- The pass, given how `updateNodes` ended: the record grows by the driver steps, the
node updates and a tail of end callbacks and at most one frame request. -/
theorem runUpdates_trace (ops : DriverOps) (m : AnimatedNodesManager) (time : Nat)
    (err : Option Error) (upd : List Event)
    (h : updateNodes (advanceDrivers ops m time) (updatedNodesList m) = some
      { error := err,
        state := { advanceDrivers ops m time with
                     trace := (advanceDrivers ops m time).trace ++ upd } }) :
    ∃ out tail, runUpdates ops m time = some out ∧
      out.state.trace = m.trace ++ (stepEvents m time ++ upd ++ tail) ∧
      (∀ e ∈ tail, (∃ cb, e = Event.endCallback cb true) ∨ e = Event.scheduleUpdate) ∧
      (err ≠ none → out.error = err ∧ tail = []) := by
  unfold runUpdates
  rw [h]
  cases err with
  | some e =>
    refine ⟨_, [], rfl, ?_, by simp, fun _ => ⟨rfl, rfl⟩⟩
    simp [advanceDrivers, stepEvents]
  | none =>
    simp only []
    obtain ⟨cbs, h1, h2, _⟩ := finishAnimations_frame (finishedAnimations ops m time)
      { advanceDrivers ops m time with trace := (advanceDrivers ops m time).trace ++ upd }
    cases he : (finishAnimations (finishedAnimations ops m time)
      { advanceDrivers ops m time with
          trace := (advanceDrivers ops m time).trace ++ upd }).error with
    | some e =>
      refine ⟨_, cbs, rfl, ?_, fun e he => Or.inl (h2 e he), by simp⟩
      rw [h1]
      simp [advanceDrivers, stepEvents]
    | none =>
      simp only []
      split
      · refine ⟨_, cbs, rfl, ?_, fun e he => Or.inl (h2 e he), by simp⟩
        simp only [h1]
        simp [advanceDrivers, stepEvents]
      · refine ⟨_, cbs ++ [Event.scheduleUpdate], rfl, ?_, ?_, by simp⟩
        · simp only [AnimatedNodesManager.emit, h1]
          simp [advanceDrivers, stepEvents]
        · intro e he
          rcases List.mem_append.1 he with h3 | h3
          · exact Or.inl (h2 e h3)
          · simp at h3
            exact Or.inr h3

/-- The pass when `updateNodes` returns normally and the driver map is well formed. -/
theorem runUpdates_ok (ops : DriverOps) (m : AnimatedNodesManager) (time : Nat)
    (upd : List Event) (hwf : m.WF)
    (h : updateNodes (advanceDrivers ops m time) (updatedNodesList m) = some
      { error := none,
        state := { advanceDrivers ops m time with
                     trace := (advanceDrivers ops m time).trace ++ upd } }) :
    runUpdates ops m time = some
      { error := none,
        state :=
          { nodeByTag := m.nodeByTag,
            animationById := unfinishedDrivers ops m time,
            updatedNodeTags := [],
            isRunningAnimations := !(unfinishedDrivers ops m time).isEmpty,
            trace := m.trace ++ (stepEvents m time ++ upd ++
              (finishedDrivers ops m time).map (fun e => Event.endCallback e.2.endCallback_ true) ++
              (if (unfinishedDrivers ops m time).isEmpty then [] else [Event.scheduleUpdate])) } } := by
  have hkeys : ((stepDrivers ops time m.animationById).map Prod.fst).Nodup := by
    rw [stepDrivers_keys]; exact hwf.1
  have hfin : finishedAnimations ops m time = (finishedDrivers ops m time).map Prod.fst := rfl
  have hnd : (finishedAnimations ops m time).Nodup := by
    rw [hfin]
    exact (List.Sublist.map _ (List.filter_sublist _)).nodup hkeys
  have hlook : ∀ e ∈ finishedDrivers ops m time,
      (stepDrivers ops time m.animationById).lookup e.1 = some e.2 := fun e he =>
    lookup_of_mem_nodup _ hkeys (List.mem_of_mem_filter he)
  have hspec := finishAnimations_spec (finishedAnimations ops m time)
    { advanceDrivers ops m time with trace := (advanceDrivers ops m time).trace ++ upd } hnd (by
      intro id hid
      rw [hfin] at hid
      obtain ⟨e, he, rfl⟩ := List.mem_map.1 hid
      exact ⟨e.2, hlook e he⟩)
  have hcb : (finishedAnimations ops m time).filterMap (fun id =>
      ((stepDrivers ops time m.animationById).lookup id).map
        (fun d => Event.endCallback d.endCallback_ true)) =
      (finishedDrivers ops m time).map (fun e => Event.endCallback e.2.endCallback_ true) := by
    rw [hfin, List.filterMap_map]
    rw [← List.filterMap_eq_map]
    apply List.filterMap_congr
    intro e he
    simp [hlook e he]
  have hrem : (stepDrivers ops time m.animationById).filter
      (fun e => decide (e.1 ∉ finishedAnimations ops m time)) = unfinishedDrivers ops m time := by
    unfold unfinishedDrivers
    apply List.filter_congr
    intro e he
    by_cases hf : ops.hasFinished e.2.body = true
    · have : e.1 ∈ finishedAnimations ops m time := by
        rw [hfin]
        exact List.mem_map_of_mem _ (List.mem_filter.2 ⟨he, hf⟩)
      simp [this, hf]
    · have : e.1 ∉ finishedAnimations ops m time := by
        rw [hfin]
        intro hmem
        obtain ⟨e2, he2, heq⟩ := List.mem_map.1 hmem
        have h1 := hlook e2 he2
        have h2 := lookup_of_mem_nodup _ hkeys he
        rw [heq, h2] at h1
        have h3 : e.2 = e2.2 := by simpa using h1
        have := (List.mem_filter.1 he2).2
        rw [← h3] at this
        exact hf this
      simp [this, hf]
  unfold runUpdates
  rw [h]
  simp only []
  rw [hspec]
  simp only []
  have e0 : (advanceDrivers ops m time).animationById = stepDrivers ops time m.animationById := rfl
  simp only [e0, hcb, hrem]
  by_cases hemp : (unfinishedDrivers ops m time).isEmpty = true
  · simp [hemp, advanceDrivers, stepEvents]
  · simp [hemp, advanceDrivers, stepEvents, AnimatedNodesManager.emit]

/-- What `updateNodes` does inside a pass, in terms of the state the pass started from. -/
theorem updateNodes_pass (ops : DriverOps) (m : AnimatedNodesManager) (time : Nat) :
    ∃ (err : Option Error) (done : List Tag),
      updateNodes (advanceDrivers ops m time) (updatedNodesList m) = some
        { error := err,
          state := { advanceDrivers ops m time with
            trace := (advanceDrivers ops m time).trace ++ done.flatMap (nodeEvents m) } } ∧
      done.Nodup ∧
      (∀ t ∈ done, Reach m (passRoots m) t ∧ ∃ node, getNodeByTag m t = .ok node) ∧
      (∀ pre c post, done = pre ++ c :: post →
        ∀ p, Reach m (passRoots m) p → Edge m p c → p ∈ pre) ∧
      ((∃ t, err = some (.nodeDoesNotExist t) ∧ Reach m (passRoots m) t ∧
          m.nodeByTag.lookup t = none ∧ done = []) ∨
       (∃ V : List Tag, V.Nodup ∧ (∀ t, t ∈ V ↔ Reach m (passRoots m) t) ∧
          (∀ t ∈ done, t ∈ V) ∧
          (∀ u ∈ V, u ∉ done → ∃ p ∈ V, p ∉ done ∧ u ∈ childrenOf m p) ∧
          (∀ t, Relation.TransGen (Edge m) t t → t ∈ V → t ∉ done) ∧
          err = if V.length ≠ done.length then some (.notAllUpdated V.length done.length)
                else none)) := by
  have hr1 : ∀ t, Reach (advanceDrivers ops m time) (updatedNodesList m) t →
      Reach m (passRoots m) t := fun t ht =>
    @reach_congr (advanceDrivers ops m time) m _ _ rfl
      (fun x hx => (mem_updatedNodesList m x).1 hx) t ht
  have hr2 : ∀ t, Reach m (passRoots m) t →
      Reach (advanceDrivers ops m time) (updatedNodesList m) t := fun t ht =>
    @reach_congr m (advanceDrivers ops m time) _ _ rfl
      (fun x hx => (mem_updatedNodesList m x).2 hx) t ht
  have hch : ∀ t, childrenOf (advanceDrivers ops m time) t = childrenOf m t := fun _ => rfl
  have hne : nodeEvents (advanceDrivers ops m time) = nodeEvents m := rfl
  rcases updateNodes_spec (advanceDrivers ops m time) (updatedNodesList m)
    (updatedNodesList_nodup m) with ⟨t, h1, h2, h3⟩ | ⟨V, done, hV, hVr, hex, hnd, hsub, hord, hstuck, hres⟩
  · refine ⟨some (.nodeDoesNotExist t), [], ?_, List.nodup_nil, by simp, ?_, Or.inl ⟨t, rfl, hr1 t h1, h2, rfl⟩⟩
    · rw [h3]; simp
    · intro pre c post hd; simp at hd
  · have hVr2 : ∀ t, t ∈ V ↔ Reach m (passRoots m) t := fun t =>
      ⟨fun h => hr1 t ((hVr t).1 h), fun h => (hVr t).2 (hr2 t h)⟩
    have hord2 : ∀ pre c post, done = pre ++ c :: post →
        ∀ p ∈ V, c ∈ childrenOf m p → p ∈ pre := hord
    refine ⟨_, done, ?_, hnd, ?_, ?_, Or.inr ⟨V, hV, hVr2, hsub, hstuck, ?_, rfl⟩⟩
    · rw [hres, hne]
    · intro t ht
      exact ⟨(hVr2 t).1 (hsub t ht), hex t (hsub t ht)⟩
    · intro pre c post hd p hp he
      exact hord2 pre c post hd p ((hVr2 p).2 hp) ((edge_iff m p c).1 he)
    · intro t hcyc htV
      exact not_done_of_cycle m (passRoots m) V done hVr2 hnd hord2 htV hcyc

/-- The update calls of a pass are those of `updateNodes`. -/
theorem runUpdates_updateCalls (ops : DriverOps) (m : AnimatedNodesManager) (time : Nat)
    (err : Option Error) (done : List Tag)
    (hex : ∀ t ∈ done, ∃ node, getNodeByTag m t = .ok node)
    (h : updateNodes (advanceDrivers ops m time) (updatedNodesList m) = some
      { error := err,
        state := { advanceDrivers ops m time with
          trace := (advanceDrivers ops m time).trace ++ done.flatMap (nodeEvents m) } }) :
    ∃ out, runUpdates ops m time = some out ∧ updateCalls (eventsSince m out.state) = done ∧
      (err ≠ none → out.error = err) := by
  obtain ⟨out, tail, h1, h2, h3, h4⟩ := runUpdates_trace ops m time err _ h
  refine ⟨out, h1, ?_, fun he => (h4 he).1⟩
  rw [eventsSince_append m out.state _ h2, updateCalls_append, updateCalls_append,
    updateCalls_stepEvents, updateCalls_nodeEvents m done hex, updateCalls_eq_nil tail h3]
  simp

/-! ## Checking reachability and acyclicity on a given graph -/

theorem reach_mem_of_closed (m : AnimatedNodesManager) (roots S : List Tag)
    (hr : ∀ r ∈ roots, r ∈ S) (hc : ∀ p ∈ S, ∀ c ∈ childrenOf m p, c ∈ S) {t : Tag}
    (h : Reach m roots t) : t ∈ S := by
  induction h with
  | root hroot => exact hr _ hroot
  | step _ he ih => exact hc _ ih _ ((edge_iff m _ _).1 he)

theorem rank_lt_of_transGen (m : AnimatedNodesManager) (S : List Tag) (rank : Tag → Nat)
    (hc : ∀ p ∈ S, ∀ c ∈ childrenOf m p, c ∈ S)
    (hrank : ∀ p ∈ S, ∀ c ∈ childrenOf m p, rank p < rank c) {a b : Tag} (ha : a ∈ S)
    (h : Relation.TransGen (Edge m) a b) : b ∈ S ∧ rank a < rank b := by
  induction h with
  | single he =>
    exact ⟨hc a ha _ ((edge_iff m _ _).1 he), hrank a ha _ ((edge_iff m _ _).1 he)⟩
  | tail _ he ih =>
    exact ⟨hc _ ih.1 _ ((edge_iff m _ _).1 he),
      lt_trans ih.2 (hrank _ ih.1 _ ((edge_iff m _ _).1 he))⟩

theorem exists_node_of_isSome (m : AnimatedNodesManager) (t : Tag)
    (h : (m.nodeByTag.lookup t).isSome = true) : ∃ node, getNodeByTag m t = .ok node := by
  unfold getNodeByTag
  cases hl : m.nodeByTag.lookup t with
  | none => simp [hl] at h
  | some node => exact ⟨node, rfl⟩

/-! ## Update order of a pass -/

/-- C1: in a state (with a well-formed driver map) whose subgraph reachable from the dirty
set and the driver targets is acyclic and names existing nodes only, `runUpdates` returns
normally and `update()` is called exactly once on every reachable tag and on no other tag. -/
theorem runUpdates_updates_reachable_once (ops : DriverOps) (m : AnimatedNodesManager)
    (time : Nat) (hwf : m.WF)
    (hex : ∀ t, Reach m (passRoots m) t → ∃ node, getNodeByTag m t = .ok node)
    (hac : ∀ t, Reach m (passRoots m) t → ¬ Relation.TransGen (Edge m) t t) :
    ∃ out, runUpdates ops m time = some out ∧ out.error = none ∧
      ∀ t, (Reach m (passRoots m) t → (updateCalls (eventsSince m out.state)).count t = 1) ∧
        (¬ Reach m (passRoots m) t → (updateCalls (eventsSince m out.state)).count t = 0) := by
  obtain ⟨err, done, hres, hnd, hdone, _, hcase⟩ := updateNodes_pass ops m time
  rcases hcase with ⟨t, _, h2, h3, _⟩ | ⟨V, hV, hVr, hsub, hstuck, _, herr⟩
  · exfalso
    obtain ⟨node, hn⟩ := hex t h2
    rw [(getNodeByTag_ok_iff m t node).1 hn] at h3
    simp at h3
  · have hall := all_done_of_acyclic m (passRoots m) V done hVr hac hstuck
    have hlen := length_eq_of_all_done V done hV hnd hsub hall
    rw [if_neg (by simpa using hlen)] at herr
    subst herr
    obtain ⟨out, h1, h2, _⟩ := runUpdates_updateCalls ops m time none done
      (fun t ht => (hdone t ht).2) hres
    have h4 := runUpdates_ok ops m time _ hwf hres
    refine ⟨out, h1, ?_, ?_⟩
    · rw [h4] at h1
      simp at h1
      rw [← h1]
    · intro t
      rw [h2]
      constructor
      · intro hr
        exact List.count_eq_one_of_mem hnd (hall t ((hVr t).2 hr))
      · intro hr
        exact List.count_eq_zero.2 (fun ht => hr (hdone t ht).1)

/-- C2: if every reachable tag names an existing node and some reachable tag lies on a
cycle, `runUpdates` ends with the error that carries the number of reachable nodes and the
number of `update()` calls made, and the second is the smaller. -/
theorem runUpdates_cycle_detected (ops : DriverOps) (m : AnimatedNodesManager) (time : Nat)
    (hex : ∀ t, Reach m (passRoots m) t → ∃ node, getNodeByTag m t = .ok node)
    (hcyc : ∃ t, Reach m (passRoots m) t ∧ Relation.TransGen (Edge m) t t) :
    ∃ (out : Outcome) (V : List Tag), runUpdates ops m time = some out ∧ V.Nodup ∧
      (∀ t, t ∈ V ↔ Reach m (passRoots m) t) ∧
      out.error = some
        (.notAllUpdated V.length (updateCalls (eventsSince m out.state)).length) ∧
      (updateCalls (eventsSince m out.state)).length < V.length := by
  obtain ⟨err, done, hres, hnd, hdone, _, hcase⟩ := updateNodes_pass ops m time
  rcases hcase with ⟨t, _, h2, h3, _⟩ | ⟨V, hV, hVr, hsub, _, hcycle, herr⟩
  · exfalso
    obtain ⟨node, hn⟩ := hex t h2
    rw [(getNodeByTag_ok_iff m t node).1 hn] at h3
    simp at h3
  · obtain ⟨t, htr, htc⟩ := hcyc
    have htV := (hVr t).2 htr
    have hlt := length_lt_of_not_mem done V t hnd hsub htV (hcycle t htc htV)
    rw [if_pos (by omega)] at herr
    obtain ⟨out, h1, h2, h3⟩ := runUpdates_updateCalls ops m time err done
      (fun t ht => (hdone t ht).2) hres
    refine ⟨out, V, h1, hV, hVr, ?_, ?_⟩
    · rw [h2, h3 (by simp [herr]), herr]
    · rw [h2]; exact hlt

/-- C3: every pass ends, and whenever `update()` is called on `c` in it, `update()` was
called earlier in the pass on every reachable `p` that lists `c` as a child. -/
theorem runUpdates_parents_first (ops : DriverOps) (m : AnimatedNodesManager) (time : Nat) :
    ∃ out, runUpdates ops m time = some out ∧
      ∀ pre c post, updateCalls (eventsSince m out.state) = pre ++ c :: post →
        ∀ p, Reach m (passRoots m) p → Edge m p c → p ∈ pre := by
  obtain ⟨err, done, hres, _, hdone, hord, _⟩ := updateNodes_pass ops m time
  obtain ⟨out, h1, h2, _⟩ := runUpdates_updateCalls ops m time err done
    (fun t ht => (hdone t ht).2) hres
  refine ⟨out, h1, ?_⟩
  rw [h2]
  exact hord

theorem exampleDag_closed :
    (∀ r ∈ passRoots exampleDag, r ∈ [1, 2, 3]) ∧
    (∀ p ∈ [1, 2, 3], ∀ c ∈ childrenOf exampleDag p, c ∈ [1, 2, 3]) ∧
    (∀ p ∈ [1, 2, 3], ∀ c ∈ childrenOf exampleDag p, p.toNat < c.toNat) ∧
    (∀ p ∈ [1, 2, 3], (exampleDag.nodeByTag.lookup p).isSome = true) := by
  decide

/-- C1 at `exampleDag`. -/
theorem runUpdates_updates_reachable_once_witness :
    exampleDag.WF ∧
    (∀ t, Reach exampleDag (passRoots exampleDag) t →
      ∃ node, getNodeByTag exampleDag t = .ok node) ∧
    (∀ t, Reach exampleDag (passRoots exampleDag) t →
      ¬ Relation.TransGen (Edge exampleDag) t t) ∧
    ∃ out, runUpdates exampleOps exampleDag 5 = some out ∧ out.error = none ∧
      ∀ t, (Reach exampleDag (passRoots exampleDag) t →
          (updateCalls (eventsSince exampleDag out.state)).count t = 1) ∧
        (¬ Reach exampleDag (passRoots exampleDag) t →
          (updateCalls (eventsSince exampleDag out.state)).count t = 0) :=
  have hin : ∀ t, Reach exampleDag (passRoots exampleDag) t → t ∈ [1, 2, 3] := fun _ h =>
    reach_mem_of_closed exampleDag _ [1, 2, 3] exampleDag_closed.1 exampleDag_closed.2.1 h
  have hex : ∀ t, Reach exampleDag (passRoots exampleDag) t →
      ∃ node, getNodeByTag exampleDag t = .ok node := fun t h =>
    exists_node_of_isSome exampleDag t (exampleDag_closed.2.2.2 t (hin t h))
  have hac : ∀ t, Reach exampleDag (passRoots exampleDag) t →
      ¬ Relation.TransGen (Edge exampleDag) t t := fun t h hc =>
    lt_irrefl _ (rank_lt_of_transGen exampleDag [1, 2, 3] Int.toNat exampleDag_closed.2.1
      exampleDag_closed.2.2.1 (hin t h) hc).2
  ⟨by decide, hex, hac, runUpdates_updates_reachable_once exampleOps exampleDag 5 (by decide) hex hac⟩

theorem exampleCycle_closed :
    (∀ r ∈ passRoots exampleCycle, r ∈ [1, 2, 3]) ∧
    (∀ p ∈ [1, 2, 3], ∀ c ∈ childrenOf exampleCycle p, c ∈ [1, 2, 3]) ∧
    (∀ p ∈ [1, 2, 3], (exampleCycle.nodeByTag.lookup p).isSome = true) := by
  decide

/-- C2 at `exampleCycle`. -/
theorem runUpdates_cycle_detected_witness :
    (∀ t, Reach exampleCycle (passRoots exampleCycle) t →
      ∃ node, getNodeByTag exampleCycle t = .ok node) ∧
    (∃ t, Reach exampleCycle (passRoots exampleCycle) t ∧
      Relation.TransGen (Edge exampleCycle) t t) ∧
    ∃ (out : Outcome) (V : List Tag), runUpdates exampleOps exampleCycle 5 = some out ∧
      V.Nodup ∧ (∀ t, t ∈ V ↔ Reach exampleCycle (passRoots exampleCycle) t) ∧
      out.error = some
        (.notAllUpdated V.length (updateCalls (eventsSince exampleCycle out.state)).length) ∧
      (updateCalls (eventsSince exampleCycle out.state)).length < V.length :=
  have hex : ∀ t, Reach exampleCycle (passRoots exampleCycle) t →
      ∃ node, getNodeByTag exampleCycle t = .ok node := fun t h =>
    exists_node_of_isSome exampleCycle t (exampleCycle_closed.2.2 t
      (reach_mem_of_closed exampleCycle _ [1, 2, 3] exampleCycle_closed.1
        exampleCycle_closed.2.1 h))
  have hcyc : ∃ t, Reach exampleCycle (passRoots exampleCycle) t ∧
      Relation.TransGen (Edge exampleCycle) t t :=
    ⟨2, Reach.root (by decide),
      Relation.TransGen.tail (Relation.TransGen.single ((edge_iff exampleCycle 2 3).2 (by decide)))
        ((edge_iff exampleCycle 3 2).2 (by decide))⟩
  ⟨hex, hcyc, runUpdates_cycle_detected exampleOps exampleCycle 5 hex hcyc⟩

/-! ## Creating nodes and starting animations -/

theorem mapSet_keys {β : Type} (l : List (Tag × β)) (k : Tag) (v : β) :
    (mapSet l k v).map Prod.fst = l.map Prod.fst := by
  unfold mapSet
  rw [List.map_map]
  apply List.map_congr_left
  intro e _
  by_cases h : e.1 = k <;> simp [h]

theorem lookup_mapSet_self {β : Type} (l : List (Tag × β)) (k : Tag) (v w : β)
    (h : l.lookup k = some w) : (mapSet l k v).lookup k = some v := by
  induction l with
  | nil => simp at h
  | cons e es ih =>
    obtain ⟨a, b⟩ := e
    unfold mapSet at ih ⊢
    rw [List.lookup_cons] at h
    by_cases h1 : k = a
    · subst h1
      simp
    · have h2 : (k == a) = false := by simp [h1]
      have h3 : (a == k) = false := by simp [Ne.symm h1]
      rw [h2] at h
      simp only [List.map_cons, h3]
      simp only [Bool.false_eq_true, if_false, List.lookup_cons, h2]
      exact ih h

theorem lookup_mapSet_ne {β : Type} (l : List (Tag × β)) (k k2 : Tag) (v : β) (h : k2 ≠ k) :
    (mapSet l k v).lookup k2 = l.lookup k2 := by
  induction l with
  | nil => simp [mapSet]
  | cons e es ih =>
    obtain ⟨a, b⟩ := e
    unfold mapSet at ih ⊢
    by_cases h1 : a = k
    · subst h1
      have h2 : (k2 == a) = false := by simp [h]
      simp only [List.map_cons, beq_self_eq_true, if_true, List.lookup_cons, h2]
      exact ih
    · have h3 : (a == k) = false := by simp [h1]
      simp only [List.map_cons, h3, Bool.false_eq_true, if_false, List.lookup_cons]
      rw [ih]

theorem mem_setInsert (l : List Tag) (t : Tag) : t ∈ setInsert l t := by
  unfold setInsert
  by_cases h : t ∈ l <;> simp [h]

/-- C4, as the code has it: starting an animation under a fresh id on an existing value
node, with type "frames", files the new driver after the drivers already there; no driver
is stopped or removed and no end callback is called, whatever the drivers target. -/
theorem startAnimatingNode_fresh_keeps_drivers (ops : DriverOps) (m : AnimatedNodesManager)
    (a n : Tag) (config : Config) (cb : Nat) (node : AnimatedNode)
    (hnode : getValueNodeByTag m n = .ok node) (hfresh : m.animationById.lookup a = none)
    (htype : config.type = "frames") :
    (startAnimatingNode ops m a n config cb).error = none ∧
    (startAnimatingNode ops m a n config cb).state.animationById =
      m.animationById ++
        [(a, { id := a, animatedValueTag := n, endCallback_ := cb, body := ops.construct config })] ∧
    ∀ c fin, Event.endCallback c fin ∉
      eventsSince m (startAnimatingNode ops m a n config cb).state := by
  unfold startAnimatingNode
  rw [hnode]
  simp only [hfresh, htype, if_true, mapInsert]
  by_cases hrun : m.isRunningAnimations = true
  · simp [hrun, eventsSince]
  · simp [hrun, eventsSince, AnimatedNodesManager.emit]

/-- C4 at `exampleDag`, where animation 7 drives node 1. -/
theorem startAnimatingNode_fresh_keeps_drivers_witness :
    getValueNodeByTag exampleDag 1 = .ok (exampleNode 1 .value "value" [2, 3]) ∧
    exampleDag.animationById.lookup 8 = none ∧
    (startAnimatingNode exampleOps exampleDag 8 1 { type := "frames", payload := 0 } 101).error
      = none ∧
    (startAnimatingNode exampleOps exampleDag 8 1
      { type := "frames", payload := 0 } 101).state.animationById =
      exampleDag.animationById ++
        [(8, { id := 8, animatedValueTag := 1, endCallback_ := 101,
               body := exampleOps.construct { type := "frames", payload := 0 } })] ∧
    ∀ c fin, Event.endCallback c fin ∉ eventsSince exampleDag
      (startAnimatingNode exampleOps exampleDag 8 1
        { type := "frames", payload := 0 } 101).state :=
  ⟨rfl, by decide,
    startAnimatingNode_fresh_keeps_drivers exampleOps exampleDag 8 1
      { type := "frames", payload := 0 } 101 (exampleNode 1 .value "value" [2, 3]) rfl
      (by decide) rfl⟩

/-- C4 fails at `exampleDag`: animation 7 drives node 1, and starting animation 8 on node 1
returns normally with both drivers registered on node 1 and no call made. -/
theorem startAnimatingNode_second_driver_counterexample :
    exampleDag.animationById.map (fun e => (e.1, e.2.animatedValueTag)) = [(7, 1)] ∧
    (startAnimatingNode exampleOps exampleDag 8 1 { type := "frames", payload := 0 } 101).error
      = none ∧
    (startAnimatingNode exampleOps exampleDag 8 1
      { type := "frames", payload := 0 } 101).state.trace = [] ∧
    (startAnimatingNode exampleOps exampleDag 8 1
      { type := "frames", payload := 0 } 101).state.animationById.map
        (fun e => (e.1, e.2.animatedValueTag)) = [(7, 1), (8, 1)] := by
  decide

/-- C5, as the code has it: `createNode` with a supported type under a tag that is already
a key of the node map returns normally, leaves the node map as it is and marks the tag
dirty. -/
theorem createNode_existing_returns (m : AnimatedNodesManager) (id : Tag) (config : Config)
    (kind : NodeKind) (node : AnimatedNode) (hkind : nodeKindOfType config.type = some kind)
    (hex : m.nodeByTag.lookup id = some node) :
    (createNode m id config).error = none ∧
    (createNode m id config).state.nodeByTag = m.nodeByTag ∧
    id ∈ (createNode m id config).state.updatedNodeTags := by
  unfold createNode
  rw [hkind]
  simp [mapInsert, hex, mem_setInsert]

/-- C5 at `exampleDag`, which has a node under tag 1. -/
theorem createNode_existing_returns_witness :
    nodeKindOfType "style" = some NodeKind.style ∧
    exampleDag.nodeByTag.lookup 1 = some (exampleNode 1 .value "value" [2, 3]) ∧
    (createNode exampleDag 1 { type := "style", payload := 0 }).error = none ∧
    (createNode exampleDag 1 { type := "style", payload := 0 }).state.nodeByTag =
      exampleDag.nodeByTag ∧
    1 ∈ (createNode exampleDag 1 { type := "style", payload := 0 }).state.updatedNodeTags :=
  ⟨by decide, by decide,
    createNode_existing_returns exampleDag 1 { type := "style", payload := 0 } .style
      (exampleNode 1 .value "value" [2, 3]) (by decide) (by decide)⟩

/-- C5 fails at `exampleDag`: tag 1 is a key of the node map and `createNode` under tag 1
returns normally. -/
theorem createNode_duplicate_counterexample :
    (exampleDag.nodeByTag.lookup 1).isSome = true ∧
    (createNode exampleDag 1 { type := "value", payload := 0 }).error = none := by
  decide

/-- C6: starting an animation under a registered id, on an existing value node, hands the
new configuration to that driver and returns; the ids and all other drivers are as before,
the only call made is that reset, and the running flag is as before. -/
theorem startAnimatingNode_registered_resets (ops : DriverOps) (m : AnimatedNodesManager)
    (a nodeTag : Tag) (config : Config) (cb : Nat) (node : AnimatedNode) (d : AnimationDriver)
    (hnode : getValueNodeByTag m nodeTag = .ok node)
    (hreg : m.animationById.lookup a = some d) :
    (startAnimatingNode ops m a nodeTag config cb).error = none ∧
    (startAnimatingNode ops m a nodeTag config cb).state.animationById.map Prod.fst =
      m.animationById.map Prod.fst ∧
    (startAnimatingNode ops m a nodeTag config cb).state.animationById.lookup a =
      some { d with body := ops.resetConfig d.body config } ∧
    (∀ k, k ≠ a → (startAnimatingNode ops m a nodeTag config cb).state.animationById.lookup k =
      m.animationById.lookup k) ∧
    eventsSince m (startAnimatingNode ops m a nodeTag config cb).state =
      [Event.resetConfig a config] ∧
    (∀ c fin, Event.endCallback c fin ∉
      eventsSince m (startAnimatingNode ops m a nodeTag config cb).state) ∧
    Event.scheduleUpdate ∉ eventsSince m (startAnimatingNode ops m a nodeTag config cb).state ∧
    (startAnimatingNode ops m a nodeTag config cb).state.isRunningAnimations =
      m.isRunningAnimations ∧
    (startAnimatingNode ops m a nodeTag config cb).state.nodeByTag = m.nodeByTag ∧
    (startAnimatingNode ops m a nodeTag config cb).state.updatedNodeTags = m.updatedNodeTags := by
  have hs : startAnimatingNode ops m a nodeTag config cb =
      { error := none,
        state := { m.emit (.resetConfig a config) with
                     animationById := mapSet m.animationById a
                       { d with body := ops.resetConfig d.body config } } } := by
    unfold startAnimatingNode
    rw [hnode]
    simp only [hreg]
  rw [hs]
  refine ⟨rfl, mapSet_keys _ _ _, lookup_mapSet_self _ _ _ _ hreg,
    fun k hk => lookup_mapSet_ne _ _ _ _ hk, ?_, ?_, ?_, rfl, rfl, rfl⟩ <;>
  simp [eventsSince, AnimatedNodesManager.emit]

/-- C6 at `exampleDag`, where animation 7 is registered and node 1 is a value node. -/
theorem startAnimatingNode_registered_resets_witness :
    getValueNodeByTag exampleDag 1 = .ok (exampleNode 1 .value "value" [2, 3]) ∧
    exampleDag.animationById.lookup 7 = some (exampleDriver 7 1 100 0) ∧
    eventsSince exampleDag
      (startAnimatingNode exampleOps exampleDag 7 1 { type := "frames", payload := 9 } 55).state =
      [Event.resetConfig 7 { type := "frames", payload := 9 }] :=
  ⟨rfl, by decide,
    (startAnimatingNode_registered_resets exampleOps exampleDag 7 1
      { type := "frames", payload := 9 } 55 (exampleNode 1 .value "value" [2, 3])
      (exampleDriver 7 1 100 0) rfl (by decide)).2.2.2.2.1⟩

/-! ## Stopping animations -/

theorem filter_not_mem_keys {β : Type} (l : List (Tag × β)) (hk : (l.map Prod.fst).Nodup)
    (P : Tag × β → Bool) :
    l.filter (fun e => decide (e.1 ∉ (l.filter P).map Prod.fst)) = l.filter (fun e => !P e) := by
  apply List.filter_congr
  intro e he
  by_cases hf : P e = true
  · have : e.1 ∈ (l.filter P).map Prod.fst :=
      List.mem_map_of_mem _ (List.mem_filter.2 ⟨he, hf⟩)
    simp [this, hf]
  · have : e.1 ∉ (l.filter P).map Prod.fst := by
      intro hmem
      obtain ⟨e2, he2, heq⟩ := List.mem_map.1 hmem
      have h1 := lookup_of_mem_nodup l hk (List.mem_of_mem_filter he2)
      have h2 := lookup_of_mem_nodup l hk he
      rw [heq, h2] at h1
      have h3 : e.2 = e2.2 := by simpa using h1
      have h4 : e = e2 := Prod.ext heq.symm h3
      rw [h4] at hf
      exact hf (List.mem_filter.1 he2).2
    simp [this, hf]

theorem filterMap_lookup_keys {β γ : Type} (l : List (Tag × β)) (hk : (l.map Prod.fst).Nodup)
    (P : Tag × β → Bool) (f : β → γ) :
    ((l.filter P).map Prod.fst).filterMap (fun id => (l.lookup id).map f) =
      (l.filter P).map (fun e => f e.2) := by
  rw [List.filterMap_map, ← List.filterMap_eq_map]
  apply List.filterMap_congr
  intro e he
  simp [lookup_of_mem_nodup l hk (List.mem_of_mem_filter he)]

theorem mapErase_eq_self {β : Type} (l : List (Tag × β)) (a : Tag)
    (h : a ∉ l.map Prod.fst) : mapErase l a = l := by
  unfold mapErase
  rw [List.filter_eq_self]
  intro e he
  have : e.1 ≠ a := fun heq => h (heq ▸ List.mem_map_of_mem _ he)
  simpa using this

theorem perm_cons_mapErase {β : Type} (l : List (Tag × β)) (hk : (l.map Prod.fst).Nodup)
    {a : Tag} {d : β} (h : l.lookup a = some d) : l.Perm ((a, d) :: mapErase l a) := by
  induction l with
  | nil => simp at h
  | cons e es ih =>
    obtain ⟨k, b⟩ := e
    simp only [List.map_cons, List.nodup_cons] at hk
    rw [List.lookup_cons] at h
    by_cases h1 : a = k
    · subst h1
      simp at h
      subst h
      have : mapErase ((a, b) :: es) a = es := by
        have h2 := mapErase_eq_self es a hk.1
        unfold mapErase at h2 ⊢
        simp [List.filter_cons, h2]
      rw [this]
    · have h2 : (a == k) = false := by simp [h1]
      rw [h2] at h
      have h3 : mapErase ((k, b) :: es) a = (k, b) :: mapErase es a := by
        unfold mapErase
        simp [List.filter_cons, Ne.symm h1]
      rw [h3]
      exact ((ih hk.2 h).cons (k, b)).trans (List.Perm.swap _ _ _)

theorem stopAnimation_registered (m : AnimatedNodesManager) (a : Tag) (d : AnimationDriver)
    (h : m.animationById.lookup a = some d) (hid : d.id = a) :
    stopAnimation m a =
      { error := none,
        state := { m with trace := m.trace ++ [Event.endCallback d.endCallback_ false],
                          animationById := mapErase m.animationById a } } := by
  unfold stopAnimation
  simp only [h, hid, if_true, AnimatedNodesManager.emit]

theorem WF.id_of_lookup {m : AnimatedNodesManager} (hwf : m.WF) {a : Tag} {d : AnimationDriver}
    (h : m.animationById.lookup a = some d) : d.id = a :=
  hwf.2 (a, d) (mem_of_lookup _ h)

/-- Stopping the animations `ids` one after the other. -/
theorem stopAll_spec :
    ∀ (ids : List Tag) (m : AnimatedNodesManager), ids.Nodup →
      (∀ id ∈ ids, ∃ d, m.animationById.lookup id = some d ∧ d.id = id) →
      ids.foldl (fun acc id => (stopAnimation acc id).state) m =
        { m with
          trace := m.trace ++ ids.filterMap (fun id =>
            (m.animationById.lookup id).map (fun d => Event.endCallback d.endCallback_ false)),
          animationById := m.animationById.filter (fun e => decide (e.1 ∉ ids)) } := by
  intro ids
  induction ids with
  | nil => intro m _ _; simp
  | cons id rest ih =>
    intro m hnd hex
    obtain ⟨d, hd, hid⟩ := hex id (List.mem_cons_self _ _)
    have hnd2 := List.nodup_cons.1 hnd
    rw [List.foldl_cons, stopAnimation_registered m id d hd hid]
    simp only []
    have hlook : ∀ k ∈ rest, (mapErase m.animationById id).lookup k = m.animationById.lookup k := by
      intro k hk
      apply lookup_mapErase_ne
      intro e
      exact hnd2.1 (e ▸ hk)
    rw [ih _ hnd2.2 (by
      intro k hk
      obtain ⟨d2, hd2⟩ := hex k (List.mem_cons_of_mem _ hk)
      exact ⟨d2, by simpa [hlook k hk] using hd2⟩)]
    have e1 : rest.filterMap (fun k =>
        ((mapErase m.animationById id).lookup k).map
          (fun d => Event.endCallback d.endCallback_ false)) =
        rest.filterMap (fun k =>
          (m.animationById.lookup k).map (fun d => Event.endCallback d.endCallback_ false)) := by
      apply List.filterMap_congr
      intro k hk
      rw [hlook k hk]
    have e2 : (mapErase m.animationById id).filter (fun e => decide (e.1 ∉ rest)) =
        m.animationById.filter (fun e => decide (e.1 ∉ id :: rest)) := by
      unfold mapErase
      rw [List.filter_filter]
      apply List.filter_congr
      intro x _
      by_cases h1 : x.1 = id <;> by_cases h2 : x.1 ∈ rest <;> simp [h1, h2]
    simp only [e1, e2, List.filterMap_cons, hd, Option.map_some',
      List.append_assoc, List.singleton_append]

/-- The function `stopAnimationsForNode` on a well-formed driver map. -/
theorem stopAnimationsForNode_spec (m : AnimatedNodesManager) (n : Tag) (hwf : m.WF) :
    stopAnimationsForNode m n =
      { m with
        trace := m.trace ++
          (m.animationById.filter (fun e => decide (e.2.animatedValueTag = n))).map
            (fun e => Event.endCallback e.2.endCallback_ false),
        animationById := m.animationById.filter (fun e => !decide (e.2.animatedValueTag = n)) } := by
  unfold stopAnimationsForNode
  simp only []
  rw [stopAll_spec _ m
    ((List.Sublist.map _ (List.filter_sublist _)).nodup hwf.1) (by
      intro id hid
      obtain ⟨e, he, rfl⟩ := List.mem_map.1 hid
      have h1 := lookup_of_mem_nodup _ hwf.1 (List.mem_of_mem_filter he)
      exact ⟨e.2, h1, hwf.2 e (List.mem_of_mem_filter he)⟩)]
  rw [filterMap_lookup_keys m.animationById hwf.1
      (fun e => decide (e.2.animatedValueTag = n))
      (fun d => Event.endCallback d.endCallback_ false),
    filter_not_mem_keys m.animationById hwf.1 (fun e => decide (e.2.animatedValueTag = n))]

theorem mem_nodeEvents (m : AnimatedNodesManager) (t : Tag) (e : Event)
    (h : e ∈ nodeEvents m t) : e = Event.update t ∨ e = Event.updateView t := by
  unfold nodeEvents at h
  cases hn : getNodeByTag m t with
  | error _ => simp [hn] at h
  | ok node =>
    by_cases hk : node.kind = .props <;> simp [hn, hk] at h
    · exact h
    · exact Or.inl h

/-- The calls of a pass: the driver steps, then updates of nodes, then end callbacks with
`true` and possibly a frame request. -/
theorem runUpdates_events (ops : DriverOps) (m : AnimatedNodesManager) (time : Nat) :
    ∃ out upd tail, runUpdates ops m time = some out ∧
      eventsSince m out.state = stepEvents m time ++ upd ++ tail ∧
      (∀ e ∈ upd, (∃ t, e = Event.update t) ∨ ∃ t, e = Event.updateView t) ∧
      (∀ e ∈ tail, (∃ cb, e = Event.endCallback cb true) ∨ e = Event.scheduleUpdate) := by
  obtain ⟨err, done, hres, _, _, _, _⟩ := updateNodes_pass ops m time
  obtain ⟨out, tail, h1, h2, h3, _⟩ := runUpdates_trace ops m time err _ hres
  refine ⟨out, _, tail, h1, eventsSince_append m out.state _ h2, ?_, h3⟩
  intro e he
  obtain ⟨t, _, ht⟩ := List.mem_flatMap.1 he
  rcases mem_nodeEvents m t e ht with h | h
  · exact Or.inl ⟨t, h⟩
  · exact Or.inr ⟨t, h⟩

/-- C7: `stopAnimation` on an id that is not registered returns with the manager as it was;
on a registered id it calls the end callback of that driver once, with `false`, takes that
one driver out of the map and changes nothing else, and the next pass does not step it. -/
theorem stopAnimation_spec (ops : DriverOps) (m : AnimatedNodesManager) (a : Tag)
    (hwf : m.WF) :
    (m.animationById.lookup a = none → stopAnimation m a = { error := none, state := m }) ∧
    (∀ d, m.animationById.lookup a = some d →
      stopAnimation m a =
        { error := none,
          state := { m with trace := m.trace ++ [Event.endCallback d.endCallback_ false],
                            animationById := mapErase m.animationById a } } ∧
      m.animationById.Perm ((a, d) :: (stopAnimation m a).state.animationById) ∧
      (stopAnimation m a).state.animationById.lookup a = none ∧
      ∀ time, ∃ out, runUpdates ops (stopAnimation m a).state time = some out ∧
        ∀ t, Event.runAnimationStep a t ∉ eventsSince (stopAnimation m a).state out.state) := by
  refine ⟨fun h => by simp [stopAnimation, h], ?_⟩
  intro d hd
  have hs := stopAnimation_registered m a d hd (WF.id_of_lookup hwf hd)
  refine ⟨hs, ?_, ?_, ?_⟩
  · rw [hs]
    exact perm_cons_mapErase _ hwf.1 hd
  · rw [hs]
    exact lookup_mapErase_self _ _
  · intro time
    obtain ⟨out, upd, tail, h1, h2, h3, h4⟩ := runUpdates_events ops (stopAnimation m a).state time
    refine ⟨out, h1, ?_⟩
    intro t hmem
    rw [h2] at hmem
    rcases List.mem_append.1 hmem with hm | hm
    · rcases List.mem_append.1 hm with hm2 | hm2
      · rw [hs] at hm2
        simp only [stepEvents, List.mem_map] at hm2
        obtain ⟨e, he, heq⟩ := hm2
        simp only [mapErase, List.mem_filter] at he
        simp at heq
        simp [heq.1] at he
      · rcases h3 _ hm2 with ⟨_, h5⟩ | ⟨_, h5⟩ <;> simp at h5
    · rcases h4 _ hm with ⟨_, h5⟩ | h5 <;> simp at h5

/-- C7 at `exampleDag`: animation 7 is registered, animation 9 is not. -/
theorem stopAnimation_spec_witness :
    exampleDag.WF ∧
    stopAnimation exampleDag 9 = { error := none, state := exampleDag } ∧
    stopAnimation exampleDag 7 =
      { error := none,
        state := { exampleDag with trace := [Event.endCallback 100 false], animationById := [] } } :=
  ⟨by decide,
    (stopAnimation_spec exampleOps exampleDag 9 (by decide)).1 (by decide),
    ((stopAnimation_spec exampleOps exampleDag 7 (by decide)).2 (exampleDriver 7 1 100 0)
      (by decide)).1⟩

/-- C8: `setValue` on an existing value node stops every driver that targets the node (one
end callback with `false` each, and removal), leaves the other drivers registered and
uncalled, and marks the node dirty; on a missing or non-value node it throws with the
manager as it was. -/
theorem setValue_spec (m : AnimatedNodesManager) (n : Tag) (v : Int) (hwf : m.WF) :
    (∀ node, getValueNodeByTag m n = .ok node →
      (setValue m n v).error = none ∧
      (setValue m n v).state.animationById =
        m.animationById.filter (fun e => !decide (e.2.animatedValueTag = n)) ∧
      eventsSince m (setValue m n v).state =
        (m.animationById.filter (fun e => decide (e.2.animatedValueTag = n))).map
          (fun e => Event.endCallback e.2.endCallback_ false) ++ [Event.setValue n v] ∧
      (∀ e ∈ (setValue m n v).state.animationById, e.2.animatedValueTag ≠ n) ∧
      n ∈ (setValue m n v).state.updatedNodeTags) ∧
    (∀ e, getValueNodeByTag m n = .error e →
      setValue m n v = { error := some e, state := m }) := by
  constructor
  · intro node hnode
    have hs : setValue m n v =
        { error := none,
          state := { stopAnimationsForNode m n with
            updatedNodeTags := setInsert (stopAnimationsForNode m n).updatedNodeTags n }.emit
              (.setValue n v) } := by
      unfold setValue
      rw [hnode]
    rw [hs, stopAnimationsForNode_spec m n hwf]
    refine ⟨rfl, rfl, ?_, ?_, mem_setInsert _ _⟩
    · simp [eventsSince, AnimatedNodesManager.emit]
    · intro e he
      have := (List.mem_filter.1 he).2
      simpa using this
  · intro e he
    unfold setValue
    rw [he]

/-- C8 at `exampleDag`: animation 7 drives value node 1; node 3 is a props node. -/
theorem setValue_spec_witness :
    exampleDag.WF ∧
    (setValue exampleDag 1 42).state.animationById = [] ∧
    eventsSince exampleDag (setValue exampleDag 1 42).state =
      [Event.endCallback 100 false, Event.setValue 1 42] ∧
    setValue exampleDag 3 42 = { error := some (.notAValueNode 3), state := exampleDag } :=
  ⟨by decide,
    ((setValue_spec exampleDag 1 42 (by decide)).1 (exampleNode 1 .value "value" [2, 3]) rfl).2.1,
    ((setValue_spec exampleDag 1 42 (by decide)).1 (exampleNode 1 .value "value" [2, 3]) rfl).2.2.1,
    (setValue_spec exampleDag 3 42 (by decide)).2 (.notAValueNode 3) rfl⟩

/-! ## The end of a pass -/

/-- A pass that returns normally from a well-formed state, in full. -/
theorem runUpdates_normal (ops : DriverOps) (m : AnimatedNodesManager) (time : Nat)
    (out : Outcome) (hwf : m.WF) (hrun : runUpdates ops m time = some out)
    (hok : out.error = none) :
    ∃ done : List Tag, out =
      { error := none,
        state :=
          { nodeByTag := m.nodeByTag,
            animationById := unfinishedDrivers ops m time,
            updatedNodeTags := [],
            isRunningAnimations := !(unfinishedDrivers ops m time).isEmpty,
            trace := m.trace ++ (stepEvents m time ++ done.flatMap (nodeEvents m) ++
              (finishedDrivers ops m time).map (fun e => Event.endCallback e.2.endCallback_ true) ++
              (if (unfinishedDrivers ops m time).isEmpty then [] else [Event.scheduleUpdate])) } } := by
  obtain ⟨err, done, hres, _, _, _, _⟩ := updateNodes_pass ops m time
  cases err with
  | some e =>
    exfalso
    obtain ⟨out2, _, h1, _, _, h4⟩ := runUpdates_trace ops m time (some e) _ hres
    rw [hrun] at h1
    have h5 : out = out2 := by simpa using h1
    have h6 := (h4 (by simp)).1
    rw [← h5, hok] at h6
    simp at h6
  | none =>
    have h1 := runUpdates_ok ops m time _ hwf hres
    rw [hrun] at h1
    exact ⟨done, by simpa using h1⟩

/-- C9: in a pass that returns normally, the drivers left in the map are those that do not
report `hasFinished()` after their step, and the calls of the pass are: the steps, then
calls of `update()` and `updateView()`, then one end callback with `true` for each driver
that reports `hasFinished()` after its step, then the frame request if there is one. -/
theorem runUpdates_finished_callbacks (ops : DriverOps) (m : AnimatedNodesManager)
    (time : Nat) (out : Outcome) (hwf : m.WF) (hrun : runUpdates ops m time = some out)
    (hok : out.error = none) :
    out.state.animationById = unfinishedDrivers ops m time ∧
    ∃ upd, eventsSince m out.state =
        stepEvents m time ++ upd ++
          (finishedDrivers ops m time).map (fun e => Event.endCallback e.2.endCallback_ true) ++
          (if (unfinishedDrivers ops m time).isEmpty then [] else [Event.scheduleUpdate]) ∧
      ∀ e ∈ upd, (∃ t, e = Event.update t) ∨ ∃ t, e = Event.updateView t := by
  obtain ⟨done, hout⟩ := runUpdates_normal ops m time out hwf hrun hok
  subst hout
  refine ⟨rfl, done.flatMap (nodeEvents m), eventsSince_append m _ _ rfl, ?_⟩
  intro e he
  obtain ⟨t, _, ht⟩ := List.mem_flatMap.1 he
  rcases mem_nodeEvents m t e ht with h | h
  · exact Or.inl ⟨t, h⟩
  · exact Or.inr ⟨t, h⟩

/-- C9 at `exampleTwoDrivers`: animation 7 finishes in the pass, animation 8 does not. -/
theorem runUpdates_finished_callbacks_witness :
    exampleTwoDrivers.WF ∧
    runUpdates exampleOps exampleTwoDrivers 5 = some
      { error := none,
        state := { exampleTwoDrivers with
          animationById := [(8, exampleDriver 8 1 101 1)],
          updatedNodeTags := [],
          trace := [.runAnimationStep 7 5, .runAnimationStep 8 5, .update 1, .update 2, .update 3,
            .updateView 3, .endCallback 100 true, .scheduleUpdate] } } ∧
    ∃ upd, [Event.runAnimationStep 7 5, .runAnimationStep 8 5, .update 1, .update 2, .update 3,
          .updateView 3, .endCallback 100 true, .scheduleUpdate] =
        [Event.runAnimationStep 7 5, .runAnimationStep 8 5] ++ upd ++
          [Event.endCallback 100 true] ++ [Event.scheduleUpdate] ∧
      ∀ e ∈ upd, (∃ t, e = Event.update t) ∨ ∃ t, e = Event.updateView t :=
  ⟨by decide, by decide,
    (runUpdates_finished_callbacks exampleOps exampleTwoDrivers 5
      { error := none,
        state := { exampleTwoDrivers with
          animationById := [(8, exampleDriver 8 1 101 1)],
          updatedNodeTags := [],
          trace := [.runAnimationStep 7 5, .runAnimationStep 8 5, .update 1, .update 2, .update 3,
            .updateView 3, .endCallback 100 true, .scheduleUpdate] } }
      (by decide) (by decide) rfl).2⟩

/-- C10: at the end of a pass that returns normally, a non-empty driver map comes with the
running flag set and exactly one frame request made in the pass, an empty driver map with
the running flag cleared and no frame request made in the pass. -/
theorem runUpdates_rearm (ops : DriverOps) (m : AnimatedNodesManager) (time : Nat)
    (out : Outcome) (hwf : m.WF) (hrun : runUpdates ops m time = some out)
    (hok : out.error = none) :
    (out.state.animationById ≠ [] →
      out.state.isRunningAnimations = true ∧
      (eventsSince m out.state).count Event.scheduleUpdate = 1) ∧
    (out.state.animationById = [] →
      out.state.isRunningAnimations = false ∧
      Event.scheduleUpdate ∉ eventsSince m out.state) := by
  obtain ⟨done, hout⟩ := runUpdates_normal ops m time out hwf hrun hok
  subst hout
  have h1 : Event.scheduleUpdate ∉ stepEvents m time := by simp [stepEvents]
  have h2 : Event.scheduleUpdate ∉ done.flatMap (nodeEvents m) := by
    intro he
    obtain ⟨t, _, ht⟩ := List.mem_flatMap.1 he
    rcases mem_nodeEvents m t _ ht with h | h <;> simp at h
  have h3 : Event.scheduleUpdate ∉ (finishedDrivers ops m time).map
      (fun e => Event.endCallback e.2.endCallback_ true) := by simp
  rw [eventsSince_append m _ _ rfl]
  constructor
  · intro hne
    have hemp : (unfinishedDrivers ops m time).isEmpty = false := by
      cases h : unfinishedDrivers ops m time with
      | nil => exact absurd h hne
      | cons _ _ => rfl
    refine ⟨by simp [hemp], ?_⟩
    simp only [hemp, List.count_append, List.count_eq_zero.2 h1, List.count_eq_zero.2 h2,
      List.count_eq_zero.2 h3]
    simp
  · intro he
    have he2 : unfinishedDrivers ops m time = [] := he
    refine ⟨by simp [he2], ?_⟩
    simp only [he2, List.isEmpty_nil, if_true, List.append_nil, List.mem_append, not_or]
    exact ⟨⟨h1, h2⟩, h3⟩

/-- C10 at `exampleTwoDrivers` (animation 8 remains) and `exampleLastDriver` (none remains). -/
theorem runUpdates_rearm_witness :
    (exampleTwoDrivers.WF ∧
      runUpdates exampleOps exampleTwoDrivers 5 = some
        { error := none,
          state := { exampleTwoDrivers with
            animationById := [(8, exampleDriver 8 1 101 1)],
            updatedNodeTags := [],
            trace := [.runAnimationStep 7 5, .runAnimationStep 8 5, .update 1, .update 2,
              .update 3, .updateView 3, .endCallback 100 true, .scheduleUpdate] } } ∧
      (eventsSince exampleTwoDrivers
        { exampleTwoDrivers with
            animationById := [(8, exampleDriver 8 1 101 1)],
            updatedNodeTags := [],
            trace := [.runAnimationStep 7 5, .runAnimationStep 8 5, .update 1, .update 2,
              .update 3, .updateView 3, .endCallback 100 true, .scheduleUpdate] }).count
          Event.scheduleUpdate = 1) ∧
    (exampleLastDriver.WF ∧
      runUpdates exampleOps exampleLastDriver 5 = some
        { error := none,
          state := { exampleLastDriver with
            animationById := [],
            updatedNodeTags := [],
            isRunningAnimations := false,
            trace := [.runAnimationStep 7 5, .update 1, .update 2, .update 3, .updateView 3,
              .endCallback 100 true] } } ∧
      Event.scheduleUpdate ∉ eventsSince exampleLastDriver
        { exampleLastDriver with
            animationById := [],
            updatedNodeTags := [],
            isRunningAnimations := false,
            trace := [.runAnimationStep 7 5, .update 1, .update 2, .update 3, .updateView 3,
              .endCallback 100 true] }) :=
  ⟨⟨by decide, by decide,
      ((runUpdates_rearm exampleOps exampleTwoDrivers 5 _ (by decide)
        (show runUpdates exampleOps exampleTwoDrivers 5 = some
          { error := none,
            state := { exampleTwoDrivers with
              animationById := [(8, exampleDriver 8 1 101 1)],
              updatedNodeTags := [],
              trace := [.runAnimationStep 7 5, .runAnimationStep 8 5, .update 1, .update 2,
                .update 3, .updateView 3, .endCallback 100 true, .scheduleUpdate] } }
          from by decide) rfl).1 (by decide)).2⟩,
    ⟨by decide, by decide,
      ((runUpdates_rearm exampleOps exampleLastDriver 5 _ (by decide)
        (show runUpdates exampleOps exampleLastDriver 5 = some
          { error := none,
            state := { exampleLastDriver with
              animationById := [],
              updatedNodeTags := [],
              isRunningAnimations := false,
              trace := [.runAnimationStep 7 5, .update 1, .update 2, .update 3, .updateView 3,
                .endCallback 100 true] } }
          from by decide) rfl).2 rfl).2⟩⟩

/-! ## Well-formedness of the driver map is kept -/

theorem WF_fresh : AnimatedNodesManager.fresh.WF := by decide

theorem WF_of_sublist {m m2 : AnimatedNodesManager} (hwf : m.WF)
    (h : m2.animationById.Sublist m.animationById) : m2.WF :=
  ⟨(h.map Prod.fst).nodup hwf.1, fun e he => hwf.2 e (h.subset he)⟩

theorem WF_of_drivers_eq {m m2 : AnimatedNodesManager} (hwf : m.WF)
    (h : m2.animationById = m.animationById) : m2.WF :=
  WF_of_sublist hwf (h ▸ List.Sublist.refl _)

theorem WF_stopAnimation (m : AnimatedNodesManager) (a : Tag) (hwf : m.WF) :
    (stopAnimation m a).state.WF := by
  unfold stopAnimation
  cases h : m.animationById.lookup a with
  | none => exact hwf
  | some d =>
    by_cases hid : d.id = a
    · simp only [hid, if_true]
      exact WF_of_sublist hwf (List.filter_sublist _)
    · simp only [hid, if_false]
      exact hwf

theorem WF_stopAnimationsForNode (m : AnimatedNodesManager) (n : Tag) (hwf : m.WF) :
    (stopAnimationsForNode m n).WF := by
  rw [stopAnimationsForNode_spec m n hwf]
  exact WF_of_sublist hwf (List.filter_sublist _)

theorem WF_setValue (m : AnimatedNodesManager) (n : Tag) (v : Int) (hwf : m.WF) :
    (setValue m n v).state.WF := by
  unfold setValue
  cases h : getValueNodeByTag m n with
  | error e => exact hwf
  | ok node => exact WF_of_drivers_eq (WF_stopAnimationsForNode m n hwf) rfl

theorem WF_startAnimatingNode (ops : DriverOps) (m : AnimatedNodesManager) (a n : Tag)
    (config : Config) (cb : Nat) (hwf : m.WF) :
    (startAnimatingNode ops m a n config cb).state.WF := by
  unfold startAnimatingNode
  cases h : getValueNodeByTag m n with
  | error e => exact hwf
  | ok node =>
    simp only []
    cases hl : m.animationById.lookup a with
    | some d =>
      simp only []
      refine ⟨?_, ?_⟩
      · show ((mapSet m.animationById a _).map Prod.fst).Nodup
        rw [mapSet_keys]
        exact hwf.1
      · intro e he
        have he2 : e ∈ mapSet m.animationById a { d with body := ops.resetConfig d.body config } := he
        unfold mapSet at he2
        obtain ⟨e0, he0, heq⟩ := List.mem_map.1 he2
        by_cases hk : e0.1 = a
        · simp only [hk, beq_self_eq_true, if_true] at heq
          rw [← heq]
          show d.id = a
          exact WF.id_of_lookup hwf hl
        · have hk2 : (e0.1 == a) = false := by simpa using hk
          simp only [hk2, Bool.false_eq_true, if_false] at heq
          rw [← heq]
          exact hwf.2 e0 he0
    | none =>
      simp only []
      by_cases ht : config.type = "frames"
      · have hw : ∀ m2 : AnimatedNodesManager, m2.animationById =
            mapInsert m.animationById a (AnimationDriver.mk a n cb (ops.construct config)) →
            m2.WF := by
          intro m2 hm2
          unfold AnimatedNodesManager.WF
          rw [hm2]
          have hna : a ∉ m.animationById.map Prod.fst := by
            intro hmem
            obtain ⟨e, he, heq⟩ := List.mem_map.1 hmem
            have := lookup_of_mem_nodup _ hwf.1 he
            rw [heq, hl] at this
            simp at this
          refine ⟨?_, ?_⟩
          · simp only [mapInsert, hl, List.map_append, List.map_cons, List.map_nil]
            refine List.nodup_append.2 ⟨hwf.1, by simp, ?_⟩
            intro x hx hx2
            simp at hx2
            exact hna (hx2 ▸ hx)
          · intro e he2
            simp only [mapInsert, hl, List.mem_append, List.mem_singleton] at he2
            rcases he2 with h1 | h1
            · exact hwf.2 e h1
            · rw [h1]
        simp only [ht, if_true]
        by_cases hr : m.isRunningAnimations = true
        · simp only [hr, if_true]
          exact hw _ rfl
        · simp only [hr, if_false]
          exact hw _ rfl
      · simp only [ht, if_false]
        exact hwf

theorem finishAnimations_sublist :
    ∀ (ids : List Tag) (m : AnimatedNodesManager),
      (finishAnimations ids m).state.animationById.Sublist m.animationById := by
  intro ids
  induction ids with
  | nil => intro m; exact List.Sublist.refl _
  | cons id rest ih =>
    intro m
    rw [finishAnimations]
    cases hd : m.animationById.lookup id with
    | none => exact List.Sublist.refl _
    | some d =>
      simp only []
      exact (ih _).trans (List.filter_sublist _)

theorem WF_stepDrivers (ops : DriverOps) (m : AnimatedNodesManager) (time : Nat)
    (hwf : m.WF) : (advanceDrivers ops m time).WF := by
  refine ⟨?_, ?_⟩
  · show ((stepDrivers ops time m.animationById).map Prod.fst).Nodup
    rw [stepDrivers_keys]
    exact hwf.1
  · intro e he
    have he2 : e ∈ stepDrivers ops time m.animationById := he
    unfold stepDrivers at he2
    obtain ⟨e0, he0, heq⟩ := List.mem_map.1 he2
    rw [← heq]
    exact hwf.2 e0 he0

/-- Every pass ends, and it ends in a well-formed state if it started in one. -/
theorem WF_runUpdates (ops : DriverOps) (m : AnimatedNodesManager) (time : Nat)
    (hwf : m.WF) : ∃ out, runUpdates ops m time = some out ∧ out.state.WF := by
  obtain ⟨err, done, hres, _, _, _, _⟩ := updateNodes_pass ops m time
  have hw1 : ({ advanceDrivers ops m time with
      trace := (advanceDrivers ops m time).trace ++ done.flatMap (nodeEvents m) } :
      AnimatedNodesManager).WF := WF_of_drivers_eq (WF_stepDrivers ops m time hwf) rfl
  unfold runUpdates
  rw [hres]
  cases err with
  | some e => exact ⟨_, rfl, hw1⟩
  | none =>
    simp only []
    have hw2 := WF_of_sublist hw1 (finishAnimations_sublist (finishedAnimations ops m time) _)
    cases he : (finishAnimations (finishedAnimations ops m time)
      { advanceDrivers ops m time with
          trace := (advanceDrivers ops m time).trace ++ done.flatMap (nodeEvents m) }).error with
    | some e => exact ⟨_, rfl, hw2⟩
    | none =>
      simp only []
      split
      · exact ⟨_, rfl, WF_of_drivers_eq hw2 rfl⟩
      · exact ⟨_, rfl, WF_of_drivers_eq hw2 rfl⟩

/-! ## Dropping a node that is still listed as a child -/

theorem getNodeByTag_dropNode_ne (m : AnimatedNodesManager) (c t : Tag) (h : t ≠ c) :
    getNodeByTag (dropNode m c).state t = getNodeByTag m t := by
  unfold getNodeByTag dropNode
  simp only [lookup_mapErase_ne m.nodeByTag h]

theorem mem_setErase (l : List Tag) (c t : Tag) : t ∈ setErase l c ↔ t ∈ l ∧ t ≠ c := by
  simp [setErase]

/-- A pass in which some reachable tag has no node throws for such a tag before any node
is updated; the drivers were stepped and the dirty set was cleared. -/
theorem runUpdates_missing_node (ops : DriverOps) (m : AnimatedNodesManager) (time : Nat)
    (c : Tag) (hreach : Reach m (passRoots m) c) (habs : m.nodeByTag.lookup c = none) :
    ∃ t, Reach m (passRoots m) t ∧ m.nodeByTag.lookup t = none ∧
      runUpdates ops m time = some
        { error := some (.nodeDoesNotExist t), state := advanceDrivers ops m time } := by
  rcases updateNodes_spec (advanceDrivers ops m time) (updatedNodesList m)
    (updatedNodesList_nodup m) with ⟨t, h1, h2, h3⟩ | ⟨V, done, _, hVr, hex, _, _, _, _, _⟩
  · refine ⟨t, ?_, h2, ?_⟩
    · exact @reach_congr (advanceDrivers ops m time) m _ _ rfl
        (fun x hx => (mem_updatedNodesList m x).1 hx) t h1
    · unfold runUpdates
      rw [h3]
  · exfalso
    have hc : Reach (advanceDrivers ops m time) (updatedNodesList m) c :=
      @reach_congr m (advanceDrivers ops m time) _ _ rfl
        (fun x hx => (mem_updatedNodesList m x).2 hx) c hreach
    obtain ⟨node, hn⟩ := hex c ((hVr c).2 hc)
    have hn2 : getNodeByTag m c = .ok node := hn
    rw [(getNodeByTag_ok_iff m c node).1 hn2] at habs
    simp at habs

/-- C11, as the code has it: `dropNode` takes the node under `c` and the dirty mark of `c`
away and leaves every other node, with its child list, and everything else as it was. In a
state in which `c` has no node and a reachable node `p` lists `c` as a child, the pass
throws the unknown-node error for a reachable tag without a node, before any node is
updated; that tag is `c` when `c` is the only reachable tag without a node. -/
theorem dropNode_dangling_child (ops : DriverOps) (m : AnimatedNodesManager) (c : Tag) :
    ((dropNode m c).error = none ∧
      (dropNode m c).state.nodeByTag.lookup c = none ∧
      (∀ t, t ≠ c → (dropNode m c).state.nodeByTag.lookup t = m.nodeByTag.lookup t) ∧
      (∀ p, p ≠ c → Edge m p c → Edge (dropNode m c).state p c) ∧
      (∀ t, t ∈ (dropNode m c).state.updatedNodeTags ↔ t ∈ m.updatedNodeTags ∧ t ≠ c) ∧
      (dropNode m c).state.animationById = m.animationById ∧
      (dropNode m c).state.isRunningAnimations = m.isRunningAnimations ∧
      (dropNode m c).state.trace = m.trace) ∧
    ∀ (m2 : AnimatedNodesManager) (p : Tag) (time : Nat),
      m2.nodeByTag.lookup c = none → Edge m2 p c → Reach m2 (passRoots m2) p →
      ∃ t, Reach m2 (passRoots m2) t ∧ m2.nodeByTag.lookup t = none ∧
        runUpdates ops m2 time = some
          { error := some (.nodeDoesNotExist t), state := advanceDrivers ops m2 time } ∧
        ((∀ u, Reach m2 (passRoots m2) u → m2.nodeByTag.lookup u = none → u = c) → t = c) := by
  refine ⟨⟨rfl, lookup_mapErase_self _ _, fun t ht => lookup_mapErase_ne _ ht, ?_,
    fun t => mem_setErase _ _ _, rfl, rfl, rfl⟩, ?_⟩
  · intro p hp he
    obtain ⟨node, hn, hc⟩ := he
    exact ⟨node, by rw [getNodeByTag_dropNode_ne m c p hp]; exact hn, hc⟩
  · intro m2 p time habs he hreach
    obtain ⟨t, h1, h2, h3⟩ := runUpdates_missing_node ops m2 time c (Reach.step hreach he) habs
    exact ⟨t, h1, h2, h3, fun honly => honly t h1 h2⟩

/-- C11 fails at `exampleDangling` after `dropNode(4)`: node 1 is dirty and lists node 2
and tag 5, node 2 still lists the dropped tag 4, and neither 4 nor 5 has a node. Tag 5 is
queued before tag 4 whatever the order of the children of node 1, and the pass throws for
tag 5, not for the dropped tag 4. -/
theorem dropNode_dangling_child_counterexample :
    passRoots (dropNode exampleDangling 4).state = [1] ∧
    2 ∈ childrenOf (dropNode exampleDangling 4).state 1 ∧
    4 ∈ childrenOf (dropNode exampleDangling 4).state 2 ∧
    (dropNode exampleDangling 4).state.nodeByTag.lookup 4 = none ∧
    (runUpdates exampleOps (dropNode exampleDangling 4).state 5).map (fun out => out.error) =
      some (some (.nodeDoesNotExist 5)) ∧
    (runUpdates exampleOps
      { (dropNode exampleDangling 4).state with
          nodeByTag := [(1, exampleNode 1 .value "value" [5, 2]),
            (2, exampleNode 2 .style "style" [4])] } 5).map (fun out => out.error) =
      some (some (.nodeDoesNotExist 5)) := by
  decide

theorem exampleDag_dropped_closed :
    (∀ r ∈ passRoots (dropNode exampleDag 3).state, r ∈ [1, 2, 3]) ∧
    (∀ p ∈ [1, 2, 3], ∀ c ∈ childrenOf (dropNode exampleDag 3).state p, c ∈ [1, 2, 3]) ∧
    (∀ u ∈ [1, 2, 3], (dropNode exampleDag 3).state.nodeByTag.lookup u = none → u = 3) := by
  decide

/-- C11 at `exampleDag` after `dropNode(3)`: nodes 1 and 2 still list tag 3, node 2 is
dirty, and the pass throws for tag 3. -/
theorem dropNode_dangling_child_witness :
    (dropNode exampleDag 3).state.nodeByTag.lookup 3 = none ∧
    Edge (dropNode exampleDag 3).state 2 3 ∧
    Reach (dropNode exampleDag 3).state (passRoots (dropNode exampleDag 3).state) 2 ∧
    runUpdates exampleOps (dropNode exampleDag 3).state 5 = some
      { error := some (.nodeDoesNotExist 3),
        state := advanceDrivers exampleOps (dropNode exampleDag 3).state 5 } := by
  have h1 : (dropNode exampleDag 3).state.nodeByTag.lookup 3 = none := by decide
  have h2 : Edge (dropNode exampleDag 3).state 2 3 :=
    (edge_iff (dropNode exampleDag 3).state 2 3).2 (by decide)
  have h3 : Reach (dropNode exampleDag 3).state (passRoots (dropNode exampleDag 3).state) 2 :=
    Reach.root (by decide)
  obtain ⟨t, ht1, ht2, ht3, ht4⟩ :=
    (dropNode_dangling_child exampleOps exampleDag 3).2 (dropNode exampleDag 3).state 2 5 h1 h2 h3
  have ht : t = 3 := ht4 (fun u hu hn =>
    exampleDag_dropped_closed.2.2 u
      (reach_mem_of_closed (dropNode exampleDag 3).state _ [1, 2, 3]
        exampleDag_dropped_closed.1 exampleDag_dropped_closed.2.1 hu) hn)
  subst ht
  exact ⟨h1, h2, h3, ht3⟩

/-! ## Frame requests of `startAnimatingNode` -/

/-- A successful `startAnimatingNode` under a fresh id, in full. -/
theorem startAnimatingNode_fresh (ops : DriverOps) (m : AnimatedNodesManager) (a n : Tag)
    (config : Config) (cb : Nat) (node : AnimatedNode)
    (hnode : getValueNodeByTag m n = .ok node) (hfresh : m.animationById.lookup a = none)
    (htype : config.type = "frames") :
    startAnimatingNode ops m a n config cb =
      { error := none,
        state :=
          { nodeByTag := m.nodeByTag,
            animationById := m.animationById ++ [(a, AnimationDriver.mk a n cb (ops.construct config))],
            updatedNodeTags := m.updatedNodeTags,
            isRunningAnimations := true,
            trace := m.trace ++ (if m.isRunningAnimations then [] else [Event.scheduleUpdate]) } } := by
  unfold startAnimatingNode
  rw [hnode]
  simp only [hfresh, htype, if_true, mapInsert]
  by_cases hrun : m.isRunningAnimations = true
  · simp [hrun]
  · simp [hrun, AnimatedNodesManager.emit]

/-- C12, as the code has it: a successful `startAnimatingNode` that registers a new driver
requests a frame exactly once when the running flag is clear, and requests none when the
running flag is set, whether or not the driver map is empty; the flag is set afterwards. -/
theorem startAnimatingNode_requests_frame (ops : DriverOps) (m : AnimatedNodesManager)
    (a n : Tag) (config : Config) (cb : Nat) (node : AnimatedNode)
    (hnode : getValueNodeByTag m n = .ok node) (hfresh : m.animationById.lookup a = none)
    (htype : config.type = "frames") :
    (startAnimatingNode ops m a n config cb).error = none ∧
    (startAnimatingNode ops m a n config cb).state.animationById.lookup a =
      some (AnimationDriver.mk a n cb (ops.construct config)) ∧
    (startAnimatingNode ops m a n config cb).state.isRunningAnimations = true ∧
    (m.isRunningAnimations = false →
      eventsSince m (startAnimatingNode ops m a n config cb).state = [Event.scheduleUpdate]) ∧
    (m.isRunningAnimations = true →
      eventsSince m (startAnimatingNode ops m a n config cb).state = []) := by
  rw [startAnimatingNode_fresh ops m a n config cb node hnode hfresh htype]
  refine ⟨rfl, ?_, rfl, ?_, ?_⟩
  · simp only [List.lookup_append, hfresh]
    simp
  · intro h
    simp [eventsSince, h]
  · intro h
    simp [eventsSince, h]

/-- C12 at a fresh manager with value node 1 (flag clear) and at `exampleStartedStopped`
(flag set). -/
theorem startAnimatingNode_requests_frame_witness :
    eventsSince (createNode AnimatedNodesManager.fresh 1 { type := "value", payload := 0 }).state
      (startAnimatingNode exampleOps
        (createNode AnimatedNodesManager.fresh 1 { type := "value", payload := 0 }).state
        7 1 { type := "frames", payload := 0 } 100).state = [Event.scheduleUpdate] ∧
    eventsSince exampleStartedStopped
      (startAnimatingNode exampleOps exampleStartedStopped 8 1
        { type := "frames", payload := 0 } 101).state = [] :=
  ⟨(startAnimatingNode_requests_frame exampleOps
      (createNode AnimatedNodesManager.fresh 1 { type := "value", payload := 0 }).state
      7 1 { type := "frames", payload := 0 } 100 (exampleNode 1 .value "value" [])
      rfl (by decide) rfl).2.2.2.1 (by decide),
    (startAnimatingNode_requests_frame exampleOps exampleStartedStopped
      8 1 { type := "frames", payload := 0 } 101 (exampleNode 1 .value "value" [])
      rfl (by decide) rfl).2.2.2.2 (by decide)⟩

/-- C12 fails at `exampleStartedStopped`: animation 7 was started and stopped before any
tick, the driver map is empty, and starting animation 8 registers it without calling the
schedule-update callback. -/
theorem startAnimatingNode_no_second_request_counterexample :
    exampleStartedStopped.animationById = [] ∧
    (startAnimatingNode exampleOps exampleStartedStopped 8 1
      { type := "frames", payload := 0 } 101).error = none ∧
    (startAnimatingNode exampleOps exampleStartedStopped 8 1
      { type := "frames", payload := 0 } 101).state.animationById.map Prod.fst = [8] ∧
    (eventsSince exampleStartedStopped
      (startAnimatingNode exampleOps exampleStartedStopped 8 1
        { type := "frames", payload := 0 } 101).state).count Event.scheduleUpdate = 0 := by
  decide

/-! ## Commands that request no frame -/

theorem quiet_refl (m : AnimatedNodesManager) : Quiet m m :=
  ⟨List.Sublist.refl _, rfl, [], by simp, by simp⟩

theorem quiet_emit (m m2 : AnimatedNodesManager) (e : Event) (he : e ≠ Event.scheduleUpdate)
    (hd : m2.animationById = m.animationById)
    (hr : m2.isRunningAnimations = m.isRunningAnimations) (ht : m2.trace = m.trace ++ [e]) :
    Quiet m m2 :=
  ⟨hd ▸ List.Sublist.refl _, hr, [e], ht, by simpa using he.symm⟩

theorem quiet_silent (m m2 : AnimatedNodesManager) (hd : m2.animationById = m.animationById)
    (hr : m2.isRunningAnimations = m.isRunningAnimations) (ht : m2.trace = m.trace) :
    Quiet m m2 :=
  ⟨hd ▸ List.Sublist.refl _, hr, [], by simp [ht], by simp⟩

theorem createNode_quiet (m : AnimatedNodesManager) (tag : Tag) (config : Config) :
    Quiet m (createNode m tag config).state := by
  unfold createNode
  cases nodeKindOfType config.type with
  | none => exact quiet_refl m
  | some kind => exact quiet_silent _ _ rfl rfl rfl

theorem dropNode_quiet (m : AnimatedNodesManager) (tag : Tag) :
    Quiet m (dropNode m tag).state :=
  quiet_silent _ _ rfl rfl rfl

theorem connectNodes_quiet (m : AnimatedNodesManager) (p c : Tag) :
    Quiet m (connectNodes m p c).state := by
  unfold connectNodes
  cases getNodeByTag m p with
  | error e => exact quiet_refl m
  | ok parent =>
    cases getNodeByTag m c with
    | error e => exact quiet_refl m
    | ok child => exact quiet_silent _ _ rfl rfl rfl

theorem disconnectNodes_quiet (m : AnimatedNodesManager) (p c : Tag) :
    Quiet m (disconnectNodes m p c).state := by
  unfold disconnectNodes
  cases getNodeByTag m p with
  | error e => exact quiet_refl m
  | ok parent =>
    cases getNodeByTag m c with
    | error e => exact quiet_refl m
    | ok child => exact quiet_silent _ _ rfl rfl rfl

theorem connectNodeToView_quiet (m : AnimatedNodesManager) (n v : Tag) :
    Quiet m (connectNodeToView m n v).state := by
  unfold connectNodeToView
  cases getNodeByTag m n with
  | error e => exact quiet_refl m
  | ok node =>
    by_cases hk : node.kind = .props
    · simp only [hk, if_true]
      exact quiet_emit _ _ (.connectToView n v) (by simp) rfl rfl rfl
    · simp only [hk, if_false]
      exact quiet_refl m

theorem disconnectNodeFromView_quiet (m : AnimatedNodesManager) (n v : Tag) :
    Quiet m (disconnectNodeFromView m n v).state := by
  unfold disconnectNodeFromView
  cases getNodeByTag m n with
  | error e => exact quiet_refl m
  | ok node =>
    by_cases hk : node.kind = .props
    · simp only [hk, if_true]
      exact quiet_emit _ _ (.disconnectFromView n v) (by simp) rfl rfl rfl
    · simp only [hk, if_false]
      exact quiet_refl m

theorem setOffset_quiet (m : AnimatedNodesManager) (tag : Tag) (offset : Int) :
    Quiet m (setOffset m tag offset).state := by
  unfold setOffset
  cases getValueNodeByTag m tag with
  | error e => exact quiet_refl m
  | ok node => exact quiet_emit _ _ (.setOffset tag offset) (by simp) rfl rfl rfl

theorem flattenOffset_quiet (m : AnimatedNodesManager) (tag : Tag) :
    Quiet m (flattenOffset m tag).state := by
  unfold flattenOffset
  cases getValueNodeByTag m tag with
  | error e => exact quiet_refl m
  | ok node => exact quiet_emit _ _ (.flattenOffset tag) (by simp) rfl rfl rfl

theorem extractOffset_quiet (m : AnimatedNodesManager) (tag : Tag) :
    Quiet m (extractOffset m tag).state := by
  unfold extractOffset
  cases getValueNodeByTag m tag with
  | error e => exact quiet_refl m
  | ok node => exact quiet_emit _ _ (.extractOffset tag) (by simp) rfl rfl rfl

theorem getValue_quiet (m : AnimatedNodesManager) (tag : Tag) :
    Quiet m (getValue m tag).state := by
  unfold getValue
  cases getValueNodeByTag m tag with
  | error e => exact quiet_refl m
  | ok node => exact quiet_emit _ _ (.getValue tag) (by simp) rfl rfl rfl

theorem stopAnimation_quiet (m : AnimatedNodesManager) (a : Tag) :
    Quiet m (stopAnimation m a).state := by
  unfold stopAnimation
  cases m.animationById.lookup a with
  | none => exact quiet_refl m
  | some d =>
    by_cases hid : d.id = a
    · simp only [hid, if_true]
      exact ⟨List.filter_sublist _, rfl, [Event.endCallback d.endCallback_ false], rfl, by simp⟩
    · simp only [hid, if_false]
      exact quiet_refl m

theorem setValue_quiet (m : AnimatedNodesManager) (tag : Tag) (value : Int) (hwf : m.WF) :
    Quiet m (setValue m tag value).state := by
  unfold setValue
  cases getValueNodeByTag m tag with
  | error e => exact quiet_refl m
  | ok node =>
    simp only []
    rw [stopAnimationsForNode_spec m tag hwf]
    refine ⟨List.filter_sublist _, rfl,
      (m.animationById.filter (fun e => decide (e.2.animatedValueTag = tag))).map
        (fun e => Event.endCallback e.2.endCallback_ false) ++ [Event.setValue tag value],
      ?_, ?_⟩
    · simp [AnimatedNodesManager.emit]
    · simp

/-! ## The frame-subscription invariant -/

theorem count_schedule_eventsSince (m m2 : AnimatedNodesManager) (evs : List Event)
    (ht : m2.trace = m.trace ++ evs) (hs : Event.scheduleUpdate ∉ evs) :
    (eventsSince m m2).count Event.scheduleUpdate = 0 := by
  rw [eventsSince_append m m2 evs ht]
  exact List.count_eq_zero.2 hs

/-- A quiet change of state keeps the frame-subscription invariant. -/
theorem inv_of_quiet (s : Session) (m2 : AnimatedNodesManager) (h : s.Inv)
    (hq : Quiet s.manager m2) :
    Session.Inv { manager := m2,
                  pendingFrames := s.pendingFrames +
                    (eventsSince s.manager m2).count Event.scheduleUpdate } := by
  obtain ⟨hsub, hrun, evs, ht, hs⟩ := hq
  obtain ⟨hwf, hp, hreg⟩ := h
  refine ⟨WF_of_sublist hwf hsub, ?_, ?_⟩
  · show s.pendingFrames + _ = if m2.isRunningAnimations = true then 1 else 0
    rw [count_schedule_eventsSince s.manager m2 evs ht hs, hrun, hp]
    rfl
  · intro hne
    show m2.isRunningAnimations = true
    rw [hrun]
    apply hreg
    intro hnil
    rw [hnil] at hsub
    exact hne (List.sublist_nil.1 hsub)

theorem mapSet_ne_nil {β : Type} (l : List (Tag × β)) (k : Tag) (v : β) (h : l ≠ []) :
    mapSet l k v ≠ [] := by
  unfold mapSet
  simpa using h

/-- The function `startAnimatingNode` keeps the frame-subscription invariant. -/
theorem inv_startAnimatingNode (ops : DriverOps) (s : Session) (a n : Tag) (config : Config)
    (cb : Nat) (h : s.Inv) :
    Session.Inv
      { manager := (startAnimatingNode ops s.manager a n config cb).state,
        pendingFrames := s.pendingFrames +
          (eventsSince s.manager
            (startAnimatingNode ops s.manager a n config cb).state).count
              Event.scheduleUpdate } := by
  cases hnode : getValueNodeByTag s.manager n with
  | error e =>
    have hs : (startAnimatingNode ops s.manager a n config cb).state = s.manager := by
      unfold startAnimatingNode
      rw [hnode]
    rw [hs]
    exact inv_of_quiet s s.manager h (quiet_refl _)
  | ok node =>
    cases hl : s.manager.animationById.lookup a with
    | some d =>
      have hs : (startAnimatingNode ops s.manager a n config cb).state =
          { s.manager.emit (.resetConfig a config) with
              animationById := mapSet s.manager.animationById a
                { d with body := ops.resetConfig d.body config } } := by
        unfold startAnimatingNode
        rw [hnode]
        simp only [hl]
      obtain ⟨hwf, hp, hreg⟩ := h
      refine ⟨WF_startAnimatingNode ops s.manager a n config cb hwf, ?_, ?_⟩
      · show s.pendingFrames + _ = _
        rw [hs, count_schedule_eventsSince s.manager _ [Event.resetConfig a config] rfl (by simp),
          hp]
        rfl
      · intro _
        rw [hs]
        apply hreg
        intro hnil
        rw [hnil] at hl
        simp at hl
    | none =>
      by_cases ht : config.type = "frames"
      · have hs := startAnimatingNode_fresh ops s.manager a n config cb node hnode hl ht
        obtain ⟨hwf, hp, hreg⟩ := h
        refine ⟨WF_startAnimatingNode ops s.manager a n config cb hwf, ?_, ?_⟩
        · show s.pendingFrames + _ = _
          rw [hs, hp]
          by_cases hr : s.manager.isRunningAnimations = true
          · simp [eventsSince, hr]
          · simp [eventsSince, hr]
        · intro _
          rw [hs]
      · have hs : (startAnimatingNode ops s.manager a n config cb).state = s.manager := by
          unfold startAnimatingNode
          rw [hnode]
          simp only [hl, ht, if_false]
        rw [hs]
        exact inv_of_quiet s s.manager h (quiet_refl _)

/-- Every command keeps the frame-subscription invariant. -/
theorem inv_command (ops : DriverOps) (s : Session) (c : Command) (h : s.Inv) :
    Session.Inv
      { manager := (c.run ops s.manager).state,
        pendingFrames := s.pendingFrames +
          (eventsSince s.manager (c.run ops s.manager).state).count Event.scheduleUpdate } := by
  cases c with
  | createNode tag config => exact inv_of_quiet s _ h (createNode_quiet _ _ _)
  | dropNode tag => exact inv_of_quiet s _ h (dropNode_quiet _ _)
  | connectNodes p c => exact inv_of_quiet s _ h (connectNodes_quiet _ _ _)
  | disconnectNodes p c => exact inv_of_quiet s _ h (disconnectNodes_quiet _ _ _)
  | connectNodeToView n v => exact inv_of_quiet s _ h (connectNodeToView_quiet _ _ _)
  | disconnectNodeFromView n v => exact inv_of_quiet s _ h (disconnectNodeFromView_quiet _ _ _)
  | setValue tag value => exact inv_of_quiet s _ h (setValue_quiet _ _ _ h.1)
  | setOffset tag offset => exact inv_of_quiet s _ h (setOffset_quiet _ _ _)
  | flattenOffset tag => exact inv_of_quiet s _ h (flattenOffset_quiet _ _)
  | extractOffset tag => exact inv_of_quiet s _ h (extractOffset_quiet _ _)
  | getValue tag => exact inv_of_quiet s _ h (getValue_quiet _ _)
  | startAnimatingNode a n config cb => exact inv_startAnimatingNode ops s a n config cb h
  | stopAnimation a => exact inv_of_quiet s _ h (stopAnimation_quiet _ _)

/-- A tick whose pass returns normally keeps the frame-subscription invariant. -/
theorem inv_tick (ops : DriverOps) (s : Session) (time : Nat) (out : Outcome) (h : s.Inv)
    (hp : s.pendingFrames ≠ 0) (hrun : runUpdates ops s.manager time = some out)
    (hok : out.error = none) :
    Session.Inv
      { manager := out.state,
        pendingFrames := s.pendingFrames - 1 +
          (eventsSince s.manager out.state).count Event.scheduleUpdate } := by
  obtain ⟨hwf, hpend, _⟩ := h
  have hwf2 : out.state.WF := by
    obtain ⟨out2, h1, h2⟩ := WF_runUpdates ops s.manager time hwf
    rw [hrun] at h1
    have : out = out2 := by simpa using h1
    rw [this]
    exact h2
  have hone : s.pendingFrames = 1 := by
    rw [hpend] at hp ⊢
    by_cases hr : s.manager.isRunningAnimations = true
    · simp [hr]
    · simp [hr] at hp
  obtain ⟨done, hout⟩ := runUpdates_normal ops s.manager time out hwf hrun hok
  have h1 : Event.scheduleUpdate ∉ stepEvents s.manager time := by simp [stepEvents]
  have h2 : Event.scheduleUpdate ∉ done.flatMap (nodeEvents s.manager) := by
    intro he
    obtain ⟨t, _, ht⟩ := List.mem_flatMap.1 he
    rcases mem_nodeEvents s.manager t _ ht with h | h <;> simp at h
  have h3 : Event.scheduleUpdate ∉ (finishedDrivers ops s.manager time).map
      (fun e => Event.endCallback e.2.endCallback_ true) := by simp
  refine ⟨hwf2, ?_, ?_⟩
  · show s.pendingFrames - 1 + _ = if out.state.isRunningAnimations = true then 1 else 0
    rw [hone, hout, eventsSince_append s.manager _ _ rfl]
    simp only [List.count_append, List.count_eq_zero.2 h1, List.count_eq_zero.2 h2,
      List.count_eq_zero.2 h3]
    cases hu : unfinishedDrivers ops s.manager time with
    | nil => simp
    | cons e es => simp
  · intro hne
    rw [hout] at hne ⊢
    show (!(unfinishedDrivers ops s.manager time).isEmpty) = true
    cases hu : unfinishedDrivers ops s.manager time with
    | nil => exact absurd hu hne
    | cons e es => rfl

theorem inv_start : Session.start.Inv := by
  refine ⟨WF_fresh, rfl, ?_⟩
  intro h
  exact absurd rfl h

theorem inv_step (ops : DriverOps) (s s2 : Session) (st : Step) (h : s.Inv)
    (hs : s.step ops st = some s2) : s2.Inv := by
  cases st with
  | command c =>
    simp only [Session.step, Option.some.injEq] at hs
    rw [← hs]
    exact inv_command ops s c h
  | tick time =>
    unfold Session.step at hs
    by_cases hp : s.pendingFrames = 0
    · simp [hp] at hs
    · simp only [hp, if_false] at hs
      cases hrun : runUpdates ops s.manager time with
      | none => simp [hrun] at hs
      | some out =>
        rw [hrun] at hs
        cases hok : out.error with
        | some e => simp [hok] at hs
        | none =>
          simp only [hok, Option.some.injEq] at hs
          rw [← hs]
          exact inv_tick ops s time out h hp hrun hok

theorem inv_run (ops : DriverOps) (steps : List Step) :
    ∀ s s2 : Session, s.Inv → Session.run ops steps s = some s2 → s2.Inv := by
  induction steps with
  | nil =>
    intro s s2 h hr
    simp only [Session.run, Option.some.injEq] at hr
    exact hr ▸ h
  | cons st rest ih =>
    intro s s2 h hr
    rw [Session.run] at hr
    cases hs : s.step ops st with
    | none => simp [hs] at hr
    | some s1 =>
      rw [hs] at hr
      exact ih s1 s2 (inv_step ops s s1 st h hs) hr

/-- C13: after every sequence of commands and ticks run from a fresh manager, in which each
tick consumes a pending frame request and no pass fails, one frame request is pending when
the running flag is set and none when it is clear; so never more than one is pending, and
one is pending whenever a driver is registered. -/
theorem session_frame_invariant (ops : DriverOps) (steps : List Step) (s : Session)
    (h : Session.run ops steps Session.start = some s) :
    s.pendingFrames = (if s.manager.isRunningAnimations then 1 else 0) ∧
    s.pendingFrames ≤ 1 ∧
    (s.manager.animationById ≠ [] → s.pendingFrames = 1) := by
  obtain ⟨_, hp, hreg⟩ := inv_run ops steps Session.start s inv_start h
  refine ⟨hp, ?_, ?_⟩
  · rw [hp]
    split <;> simp
  · intro hne
    rw [hp, hreg hne]
    rfl

theorem exampleSteps_isSome :
    (Session.run exampleOps exampleSteps Session.start).isSome = true := by
  decide

/-- C13 at `exampleSteps`: after the start and one tick a frame is pending and animation 7
is registered; after the second tick nothing is pending. -/
theorem session_frame_invariant_witness :
    (Session.run exampleOps (exampleSteps.take 3) Session.start).map
        (fun s => (s.pendingFrames, s.manager.isRunningAnimations,
          s.manager.animationById.map Prod.fst)) = some (1, true, [7]) ∧
    ∃ s, Session.run exampleOps exampleSteps Session.start = some s ∧
      s.manager.isRunningAnimations = false ∧
      s.pendingFrames = (if s.manager.isRunningAnimations then 1 else 0) ∧
      s.pendingFrames ≤ 1 ∧
      (s.manager.animationById ≠ [] → s.pendingFrames = 1) := by
  exact ⟨by decide, (Session.run exampleOps exampleSteps Session.start).get exampleSteps_isSome,
    (Option.some_get exampleSteps_isSome).symm, by decide,
    session_frame_invariant exampleOps exampleSteps _ (Option.some_get exampleSteps_isSome).symm⟩

/-! ## A pass in which `updateNodes` throws -/

/-- C14: when `updateNodes` throws inside `runUpdates`, the pass ends there with that error:
the drivers are as their steps left them, none removed, the dirty set is empty, the running
flag is as before, and no end callback or frame request was made in the pass. If the flag
was set, a following `startAnimatingNode` under a fresh id registers its driver and requests
no frame. -/
theorem runUpdates_failed_updateNodes (ops : DriverOps) (m : AnimatedNodesManager)
    (time : Nat) (out : Outcome) (e : Error)
    (hupd : updateNodes (advanceDrivers ops m time) (updatedNodesList m) = some out)
    (herr : out.error = some e) :
    runUpdates ops m time = some out ∧
    ((∃ t, e = .nodeDoesNotExist t) ∨ ∃ a u, e = .notAllUpdated a u) ∧
    out.state.animationById = stepDrivers ops time m.animationById ∧
    out.state.animationById.map Prod.fst = m.animationById.map Prod.fst ∧
    (∀ d ∈ finishedDrivers ops m time, d ∈ out.state.animationById) ∧
    out.state.updatedNodeTags = [] ∧
    out.state.isRunningAnimations = m.isRunningAnimations ∧
    (∀ cb fin, Event.endCallback cb fin ∉ eventsSince m out.state) ∧
    Event.scheduleUpdate ∉ eventsSince m out.state ∧
    (m.isRunningAnimations = true →
      ∀ (a n : Tag) (config : Config) (cb : Nat) (node : AnimatedNode),
        getValueNodeByTag out.state n = .ok node → out.state.animationById.lookup a = none →
        config.type = "frames" →
        (startAnimatingNode ops out.state a n config cb).error = none ∧
        (startAnimatingNode ops out.state a n config cb).state.animationById =
          out.state.animationById ++ [(a, AnimationDriver.mk a n cb (ops.construct config))] ∧
        (startAnimatingNode ops out.state a n config cb).state.isRunningAnimations = true ∧
        eventsSince out.state (startAnimatingNode ops out.state a n config cb).state = []) := by
  obtain ⟨err, done, hres, _, _, _, hcase⟩ := updateNodes_pass ops m time
  rw [hupd] at hres
  have hout : out =
      { error := err,
        state := { advanceDrivers ops m time with
          trace := (advanceDrivers ops m time).trace ++ done.flatMap (nodeEvents m) } } := by
    simpa using hres
  have hrun : runUpdates ops m time = some out := by
    unfold runUpdates
    rw [hupd]
    simp only [herr]
  have hev : eventsSince m out.state = stepEvents m time ++ done.flatMap (nodeEvents m) := by
    apply eventsSince_append
    rw [hout]
    simp [advanceDrivers, stepEvents]
  have hnot : ∀ ev ∈ eventsSince m out.state,
      (∃ a t, ev = Event.runAnimationStep a t) ∨ (∃ t, ev = Event.update t) ∨
        ∃ t, ev = Event.updateView t := by
    intro ev hmem
    rw [hev] at hmem
    rcases List.mem_append.1 hmem with h1 | h1
    · simp only [stepEvents, List.mem_map] at h1
      obtain ⟨x, _, hx⟩ := h1
      exact Or.inl ⟨x.1, time, hx.symm⟩
    · obtain ⟨t, _, ht⟩ := List.mem_flatMap.1 h1
      rcases mem_nodeEvents m t ev ht with h | h
      · exact Or.inr (Or.inl ⟨t, h⟩)
      · exact Or.inr (Or.inr ⟨t, h⟩)
  have hdr : out.state.animationById = stepDrivers ops time m.animationById := by
    rw [hout]; rfl
  have hflag : out.state.isRunningAnimations = m.isRunningAnimations := by
    rw [hout]; rfl
  refine ⟨hrun, ?_, hdr, ?_, ?_, ?_, hflag, ?_, ?_, ?_⟩
  · have he : err = some e := by rw [hout] at herr; exact herr
    rcases hcase with ⟨t, h1, _⟩ | ⟨V, _, _, _, _, _, h1⟩
    · rw [h1] at he
      exact Or.inl ⟨t, by simpa using he.symm⟩
    · rw [h1] at he
      split at he
      · exact Or.inr ⟨_, _, by simpa using he.symm⟩
      · simp at he
  · rw [hdr, stepDrivers_keys]
  · intro d hd
    rw [hdr]
    exact List.mem_of_mem_filter hd
  · rw [hout]; rfl
  · intro cb fin hmem
    rcases hnot _ hmem with ⟨_, _, h⟩ | ⟨_, h⟩ | ⟨_, h⟩ <;> simp at h
  · intro hmem
    rcases hnot _ hmem with ⟨_, _, h⟩ | ⟨_, h⟩ | ⟨_, h⟩ <;> simp at h
  · intro hrunning a n config cb node hnode hfresh htype
    have hr2 : out.state.isRunningAnimations = true := by rw [hflag, hrunning]
    rw [startAnimatingNode_fresh ops out.state a n config cb node hnode hfresh htype]
    refine ⟨rfl, rfl, rfl, ?_⟩
    simp [eventsSince, hr2]

/-- C14 at `exampleCycleFinishing`: the pass throws on the cycle, animation 7 has finished
but stays registered and uncalled, and animation 8 is then registered without a frame
request. -/
theorem runUpdates_failed_updateNodes_witness :
    runUpdates exampleOps exampleCycleFinishing 5 = some
      { error := some (.notAllUpdated 3 1),
        state := { exampleCycleFinishing with
          animationById := [(7, exampleDriver 7 1 100 2)],
          updatedNodeTags := [],
          trace := [.runAnimationStep 7 5, .update 1] } } ∧
    finishedDrivers exampleOps exampleCycleFinishing 5 = [(7, exampleDriver 7 1 100 2)] ∧
    eventsSince
      { exampleCycleFinishing with
          animationById := [(7, exampleDriver 7 1 100 2)],
          updatedNodeTags := [],
          trace := [.runAnimationStep 7 5, .update 1] }
      (startAnimatingNode exampleOps
        { exampleCycleFinishing with
            animationById := [(7, exampleDriver 7 1 100 2)],
            updatedNodeTags := [],
            trace := [.runAnimationStep 7 5, .update 1] }
        8 1 { type := "frames", payload := 0 } 101).state = [] :=
  have h := runUpdates_failed_updateNodes exampleOps exampleCycleFinishing 5
    { error := some (.notAllUpdated 3 1),
      state := { exampleCycleFinishing with
        animationById := [(7, exampleDriver 7 1 100 2)],
        updatedNodeTags := [],
        trace := [.runAnimationStep 7 5, .update 1] } }
    (.notAllUpdated 3 1) (by decide) rfl
  ⟨h.1, by decide,
    (h.2.2.2.2.2.2.2.2.2 (by decide) 8 1 { type := "frames", payload := 0 } 101
      (exampleNode 1 .value "value" [2, 3]) rfl (by decide) rfl).2.2.2⟩

end rnoh
